import Mathlib

/-!
Verification of the memory-module retention engine (Rust crate `memory-module`).

Shallow embedding conventions:

* Rust `f32`/`f64` values are modelled as `ℚ`.  The transcendental `f32`
  operations the source uses (`exp`, `powf`, `sqrt`) have no exact rational
  counterpart, so they are abstracted as an explicit parameter `FloatFns`;
  every theorem below is universally quantified over it, so nothing depends
  on the particular values those functions take.
* `chrono::DateTime<Utc>` timestamps are modelled as `ℤ` (seconds); the
  source only ever uses `(now - timestamp).num_seconds()`.
* `Uuid` identifiers are modelled as `ℕ` (the source only hashes them via
  `as_u128 % num_shards`, compares them for equality, and uses them as map
  keys).
* `HashMap<Uuid, Memory>` / `DashMap<Uuid, Memory>` are modelled as
  association lists `List (ℕ × Memory)`; iteration order of the map is
  modelled as list order.  `insert` replaces an existing key in place and
  otherwise appends.
* `Utc::now()` is modelled by passing the timestamp `now` explicitly to
  each operation that reads the clock.
* Fallible operations return `Except MemoryError`; a Rust `panic!` /
  failed `assert!` is modelled as `Option.none` on operations whose Rust
  return type has no error channel.
* `src/src/model.rs` defines `AgentState` and `AgentProfile` twice with
  different field sets, and `Memory::calculate_retention` reads fields of
  both versions (plus the free variable `agent_profile`, which can only
  refer to its `profile` parameter).  The embedding merges the two field
  sets into single structures so that every field access occurring in the
  source resolves; `calculate_retention` is transcribed exactly as written.
-/

/-- Abstractions of the `f32` transcendental operations used by the source
(`exp` in the phase term, `powf` in the decay term, `sqrt` in the norms). -/
structure FloatFns where
  exp : ℚ → ℚ
  powf : ℚ → ℚ → ℚ
  sqrt : ℚ → ℚ

namespace simd_utils

/-- Embedding of `simd_utils::dot` (src/src/simd_utils.rs lines 6-27): a
SIMD dot product that accumulates 8 lanes over `len / 8` chunks, reduces the
lanes, then adds the `len % 8` remainder scalarly.  Returns 0 when the
lengths differ. -/
def dot (a b : List ℚ) : ℚ :=
  if a.length ≠ b.length then 0
  else
    let lanes : ℕ := 8
    let chunks := a.length / lanes
    let remainder := a.length % lanes
    let vecSum := ∑ l ∈ Finset.range lanes, ∑ i ∈ Finset.range chunks,
      a.getD (i * lanes + l) 0 * b.getD (i * lanes + l) 0
    vecSum + ∑ i ∈ Finset.Ico (a.length - remainder) a.length, a.getD i 0 * b.getD i 0

/-- Embedding of `simd_utils::norm` (src/src/simd_utils.rs lines 30-48):
chunked sum of squares followed by `sqrt`. -/
def norm (F : FloatFns) (a : List ℚ) : ℚ :=
  let lanes : ℕ := 8
  let chunks := a.length / lanes
  let remainder := a.length % lanes
  let vecSum := ∑ l ∈ Finset.range lanes, ∑ i ∈ Finset.range chunks,
    a.getD (i * lanes + l) 0 * a.getD (i * lanes + l) 0
  F.sqrt (vecSum + ∑ i ∈ Finset.Ico (a.length - remainder) a.length, a.getD i 0 * a.getD i 0)

/-- Embedding of `simd_utils::cosine_similarity` (src/src/simd_utils.rs
lines 51-65).  This is the similarity kernel `MemoryStore::find_relevant`
uses (via the private wrapper at src/src/store.rs lines 283-285). -/
def cosine_similarity (F : FloatFns) (a b : List ℚ) : ℚ :=
  if a = [] ∨ b = [] ∨ a.length ≠ b.length then 0
  else
    let dot_product := dot a b
    let norm_a := norm F a
    let norm_b := norm F b
    if norm_a = 0 ∨ norm_b = 0 then 0 else dot_product / (norm_a * norm_b)

end simd_utils

namespace simd

/-- Embedding of the scalar fallback `simd::cosine_similarity`
(src/src/simd.rs lines 64-79), selected whenever the `simd` cargo feature
is disabled or the target is not x86_64.  Over `ℚ` the SSE2 fast path
(lines 13-56) accumulates exactly the same sums, chunked four lanes at a
time. -/
def cosine_similarity (F : FloatFns) (a b : List ℚ) : ℚ :=
  if a = [] ∨ b = [] ∨ a.length ≠ b.length then 0
  else
    let dot_product := ((a.zip b).map (fun p => p.1 * p.2)).sum
    let norm_a := F.sqrt ((a.map (fun x => x * x)).sum)
    let norm_b := F.sqrt ((b.map (fun x => x * x)).sum)
    if norm_a = 0 ∨ norm_b = 0 then 0 else dot_product / (norm_a * norm_b)

end simd

namespace concurrent_store

/-- Embedding of the private scalar `cosine_similarity` at the bottom of
src/src/concurrent_store.rs (lines 127-139), textually identical to the
scalar fallback in src/src/simd.rs. -/
def cosine_similarity (F : FloatFns) (a b : List ℚ) : ℚ :=
  if a = [] ∨ b = [] ∨ a.length ≠ b.length then 0
  else
    let dot_product := ((a.zip b).map (fun p => p.1 * p.2)).sum
    let norm_a := F.sqrt ((a.map (fun x => x * x)).sum)
    let norm_b := F.sqrt ((b.map (fun x => x * x)).sum)
    if norm_a = 0 ∨ norm_b = 0 then 0 else dot_product / (norm_a * norm_b)

end concurrent_store

/-- Spec-side dot product, written from the spec's words: the sum of the
pointwise products of the two vectors. -/
def specDot (a b : List ℚ) : ℚ := ((a.zip b).map (fun p => p.1 * p.2)).sum

/-- Spec-side Euclidean norm, written from the spec's words: the square
root of the sum of squares. -/
def specNorm (F : FloatFns) (a : List ℚ) : ℚ := F.sqrt ((a.map (fun x => x * x)).sum)

/-- Spec-side similarity contract, written from the words of spec.md §4.1:
zero when either vector is empty or the lengths differ, zero when either
norm is exactly zero, and otherwise the cosine similarity
dot(a,b) / (norm(a) * norm(b)). -/
def cosine_similarity_spec (F : FloatFns) (a b : List ℚ) : ℚ :=
  if a = [] ∨ b = [] ∨ a.length ≠ b.length then 0
  else if specNorm F a = 0 ∨ specNorm F b = 0 then 0
  else specDot a b / (specNorm F a * specNorm F b)

/-- Embedding of `DecayParams` (src/src/model.rs lines 198-205). -/
structure DecayParams where
  alpha : ℚ
  beta_0 : ℚ
deriving DecidableEq, Repr

/-- Embedding of `DecayParams::default` (src/src/model.rs lines 207-214):
alpha = 0.8, beta_0 = 0.01. -/
def DecayParams.default : DecayParams := { alpha := 8/10, beta_0 := 1/100 }

/-- Embedding of `Memory` (src/src/model.rs lines 143-195).  `Uuid` is
modelled as `ℕ`, timestamps as `ℤ` seconds, the opaque JSON metadata as a
`String`, and the `VecDeque` recall history as a list. -/
structure Memory where
  id : ℕ
  semantic_vector : List ℚ
  emotion : ℚ
  age_at_formation : ℚ
  capacity_weight : ℚ
  timestamp : ℤ
  last_retrieved : ℤ
  retrieval_count : ℕ
  metadata : String
  recall_history : List ℤ
  memory_strength : ℚ
  decay_params : DecayParams
deriving DecidableEq, Repr

/-- Embedding of `Memory::new` (src/src/model.rs lines 238-254).  The
freshly generated `Uuid` and the `Utc::now()` call are passed in
explicitly.  `emotion` is clamped to [-1,1] and `capacity_weight` to
[0,1] at construction, exactly as in the source. -/
def Memory.new (id : ℕ) (now : ℤ) (semantic_vector : List ℚ)
    (emotion age_at_formation capacity_weight : ℚ) : Memory :=
  { id := id
    semantic_vector := semantic_vector
    emotion := max (-1) (min 1 emotion)
    age_at_formation := age_at_formation
    capacity_weight := max 0 (min 1 capacity_weight)
    timestamp := now
    last_retrieved := now
    retrieval_count := 0
    metadata := ""
    recall_history := []
    memory_strength := 1
    decay_params := DecayParams.default }

/-- Embedding of `AgentState`.  src/src/model.rs defines this structure
twice (lines 30-46 with stress/fatigue/focus and lines 321-338 with
current_age/sleep_debt/cortisol_level/fatigue/training_factor);
`calculate_retention` reads `stress`, `fatigue` and `training_factor`,
while the stores construct the second version.  The embedding merges the
two field sets so that every access in the source resolves. -/
structure AgentState where
  stress : ℚ
  fatigue : ℚ
  focus : ℚ
  current_age : ℚ
  sleep_debt : ℚ
  cortisol_level : ℚ
  training_factor : ℚ
deriving DecidableEq, Repr

/-- Embedding of `AgentProfile`, likewise defined twice in
src/src/model.rs (lines 71-96 and lines 341-369); merged field set. -/
structure AgentProfile where
  decay_rate : ℚ
  emotional_bias : ℚ
  capacity_factor : ℚ
  interference_factor : ℚ
  k : ℚ
  a_mid : ℚ
  epsilon : ℚ
  theta_shock : ℚ
  gamma : ℚ
  eta : ℚ
  c_base : ℚ
  rho : ℚ
  kappa : ℚ
deriving DecidableEq, Repr

/-- Merged embedding of the two `AgentProfile::default` impls
(src/src/model.rs lines 110-117 and 372-384). -/
def AgentProfile.default : AgentProfile :=
  { decay_rate := 1/10
    emotional_bias := 1/2
    capacity_factor := 1
    interference_factor := 3/10
    k := 1/2
    a_mid := 22
    epsilon := 1/5
    theta_shock := 7/10
    gamma := 3/2
    eta := 3/10
    c_base := 100
    rho := 1/10
    kappa := 1/20 }

/-- Embedding of the phase computation of `Memory::calculate_retention`
(src/src/model.rs lines 290-292), transcribed exactly as written: the
logistic argument is `capacity_factor * (age_at_formation -
capacity_factor)` and the additive floor is `interference_factor`. -/
def Memory.phase_term (F : FloatFns) (m : Memory) (profile : AgentProfile) : ℚ :=
  1 / (1 + F.exp (profile.capacity_factor * (m.age_at_formation - profile.capacity_factor)))
    + profile.interference_factor

/-- Embedding of `Memory::calculate_retention` (src/src/model.rs lines
285-318).  The free variable `agent_profile` occurring in the source's
capacity-competition block can only denote the `profile` parameter and is
transcribed as such.  The function is pure: it takes `&self` and returns a
scalar without mutating the record. -/
def Memory.calculate_retention (F : FloatFns) (m : Memory) (now : ℤ)
    (agent_state : AgentState) (profile : AgentProfile) : ℚ :=
  let t_days : ℚ := ((now - m.timestamp : ℤ) : ℚ) / 86400
  let phase := m.phase_term F profile
  let beta := m.decay_params.beta_0 * (1 + agent_state.stress + agent_state.fatigue)
  let decay := F.powf (1 + beta * t_days) (-m.decay_params.alpha)
  let emo_bias :=
    if profile.emotional_bias < |m.emotion| then 1 + profile.emotional_bias * |m.emotion|
    else 1 + profile.emotional_bias * m.emotion
  let c_max := profile.c_base * (1 - agent_state.fatigue + agent_state.training_factor)
  let cap_comp := max (min m.capacity_weight c_max / profile.c_base) 0
  let interference := 1
  let retention := phase * decay * emo_bias * cap_comp * interference * m.memory_strength
  min (max retention 0) 1

/-- Modelled from the spec: `Memory::record_retrieval` is invoked by all
three stores (store.rs line 173, concurrent_store.rs line 75,
sharded_store.rs line 78) and by model.rs's own test at line 409, but its
definition is missing from src/.  Spec.md §4.3: the effect appends `now`
to `recall_history`, increments `retrieval_count`, sets `last_retrieved =
now`, and updates `memory_strength *= 1/(1+rho)`. -/
def Memory.record_retrieval (m : Memory) (now : ℤ) (rho : ℚ) : Memory :=
  { m with
    recall_history := m.recall_history ++ [now]
    retrieval_count := m.retrieval_count + 1
    last_retrieved := now
    memory_strength := m.memory_strength * (1 / (1 + rho)) }

/-- Embedding of `MemoryError` (src/src/error.rs lines 27-58), without the
`faiss`-feature-gated variant. -/
inductive MemoryError where
  | NotFound : String → MemoryError
  | Serialization : String → MemoryError
  | Storage : String → MemoryError
  | InvalidParameter : String → MemoryError
  | NotSupported : String → MemoryError
deriving DecidableEq, Repr

/-- Embedding of `MemoryError::not_found` (src/src/error.rs lines 94-96). -/
def MemoryError.not_found (id : ℕ) : MemoryError :=
  MemoryError.NotFound ("Memory with id " ++ toString id ++ " not found")

/-- HashMap/DashMap `insert` on the association-list model: replaces the
value in place when the key is present, otherwise appends. -/
def insertAssoc (ms : List (ℕ × Memory)) (id : ℕ) (m : Memory) : List (ℕ × Memory) :=
  if ms.any (fun p => p.1 == id) then ms.map (fun p => if p.1 = id then (id, m) else p)
  else ms ++ [(id, m)]

/-- Embedding of `MemoryStore` (src/src/store.rs lines 32-38), without the
`faiss`-feature-gated index field. -/
structure MemoryStore where
  memories : List (ℕ × Memory)
  agent_profile : AgentProfile
  agent_state : AgentState
deriving DecidableEq, Repr

namespace MemoryStore

/-- Embedding of `MemoryStore::new` (src/src/store.rs lines 65-73). -/
def new (agent_profile : AgentProfile) (agent_state : AgentState) : MemoryStore :=
  { memories := [], agent_profile := agent_profile, agent_state := agent_state }

/-- Embedding of `MemoryStore::add_memory` (src/src/store.rs lines 76-89,
non-faiss path): inserts under the memory's own id and returns the id. -/
def add_memory (s : MemoryStore) (memory : Memory) : MemoryStore × ℕ :=
  ({ s with memories := insertAssoc s.memories memory.id memory }, memory.id)

/-- Embedding of `MemoryStore::get_memory` (src/src/store.rs lines 92-94). -/
def get_memory (s : MemoryStore) (id : ℕ) : Option Memory :=
  s.memories.lookup id

/-- Embedding of `MemoryStore::remove_memory` (src/src/store.rs lines
106-111): not-found on an absent id. -/
def remove_memory (s : MemoryStore) (id : ℕ) : Except MemoryError MemoryStore :=
  if (s.memories.lookup id).isSome then
    Except.ok { s with memories := s.memories.filter (fun p => p.1 != id) }
  else Except.error (MemoryError.not_found id)

/-- Embedding of `MemoryStore::find_relevant` (src/src/store.rs lines
122-185, non-faiss path).  One `now` snapshot; every memory is scored with
similarity * retention; a stable sort descending by score (Rust `sort_by`
with comparator `b.partial_cmp(a)` is stable, as is `List.mergeSort`);
truncation to `limit`; reinforcement of exactly the truncated set; and the
returned pairs are value copies of the now-reinforced records looked up
again in the map.  The non-faiss path has no error exit, so the `Result`
is always `ok`. -/
def find_relevant (F : FloatFns) (now : ℤ) (s : MemoryStore)
    (query_vector : List ℚ) (limit : ℕ) :
    Except MemoryError (MemoryStore × List (ℚ × Memory)) :=
  let scored := s.memories.map (fun p =>
    (p.1, simd_utils.cosine_similarity F query_vector p.2.semantic_vector
            * p.2.calculate_retention F now s.agent_state s.agent_profile))
  let sorted := scored.mergeSort (fun x y => decide (y.2 ≤ x.2))
  let top_n := sorted.take limit
  let memories' := top_n.foldl (fun acc t =>
      acc.map (fun p => if p.1 = t.1 then (p.1, p.2.record_retrieval now s.agent_profile.rho) else p))
    s.memories
  let result := top_n.filterMap (fun t => (memories'.lookup t.1).map (fun mem => (t.2, mem)))
  Except.ok ({ s with memories := memories' }, result)

/-- Embedding of `MemoryStore::maintain` (src/src/store.rs lines 209-223).
The leading `assert!((0.0..=1.0).contains(&retention_threshold))` panic is
modelled as `none`; otherwise one `now` snapshot, retain every memory whose
retention is at least the threshold, and return the number removed. -/
def maintain (F : FloatFns) (now : ℤ) (s : MemoryStore)
    (retention_threshold : ℚ) : Option (MemoryStore × ℕ) :=
  if 0 ≤ retention_threshold ∧ retention_threshold ≤ 1 then
    let before := s.memories.length
    let kept := s.memories.filter (fun p =>
      decide (retention_threshold ≤ p.2.calculate_retention F now s.agent_state s.agent_profile))
    some ({ s with memories := kept }, before - kept.length)
  else none

/-- Embedding of `MemoryStore::update_agent_state` (src/src/store.rs lines
226-228): wholesale replacement. -/
def update_agent_state (s : MemoryStore) (state : AgentState) : MemoryStore :=
  { s with agent_state := state }

end MemoryStore

/-- Embedding of `ConcurrentMemoryStore` (src/src/concurrent_store.rs
lines 10-14); the `DashMap` is modelled as an association list like the
single-threaded store's `HashMap`, which is faithful for the
single-threaded executions the claims quantify over. -/
structure ConcurrentMemoryStore where
  memories : List (ℕ × Memory)
  agent_profile : AgentProfile
  agent_state : AgentState
deriving DecidableEq, Repr

namespace ConcurrentMemoryStore

/-- Embedding of `ConcurrentMemoryStore::new` (concurrent_store.rs 18-24). -/
def new (agent_profile : AgentProfile) (agent_state : AgentState) : ConcurrentMemoryStore :=
  { memories := [], agent_profile := agent_profile, agent_state := agent_state }

/-- Embedding of `ConcurrentMemoryStore::add_memory` (concurrent_store.rs
27-31). -/
def add_memory (s : ConcurrentMemoryStore) (memory : Memory) : ConcurrentMemoryStore × ℕ :=
  ({ s with memories := insertAssoc s.memories memory.id memory }, memory.id)

/-- Embedding of `ConcurrentMemoryStore::find_relevant`
(concurrent_store.rs lines 47-85): identical algorithm to the
single-threaded store, but scoring with the module-private scalar
`cosine_similarity` at the bottom of the same file. -/
def find_relevant (F : FloatFns) (now : ℤ) (s : ConcurrentMemoryStore)
    (query_vector : List ℚ) (limit : ℕ) :
    Except MemoryError (ConcurrentMemoryStore × List (ℚ × Memory)) :=
  let scored := s.memories.map (fun p =>
    (p.1, concurrent_store.cosine_similarity F query_vector p.2.semantic_vector
            * p.2.calculate_retention F now s.agent_state s.agent_profile))
  let sorted := scored.mergeSort (fun x y => decide (y.2 ≤ x.2))
  let top_n := sorted.take limit
  let memories' := top_n.foldl (fun acc t =>
      acc.map (fun p => if p.1 = t.1 then (p.1, p.2.record_retrieval now s.agent_profile.rho) else p))
    s.memories
  let result := top_n.filterMap (fun t => (memories'.lookup t.1).map (fun mem => (t.2, mem)))
  Except.ok ({ s with memories := memories' }, result)

/-- Embedding of `ConcurrentMemoryStore::maintain` (concurrent_store.rs
lines 100-109); the `assert!` panic is modelled as `none`. -/
def maintain (F : FloatFns) (now : ℤ) (s : ConcurrentMemoryStore)
    (retention_threshold : ℚ) : Option (ConcurrentMemoryStore × ℕ) :=
  if 0 ≤ retention_threshold ∧ retention_threshold ≤ 1 then
    let before := s.memories.length
    let kept := s.memories.filter (fun p =>
      decide (retention_threshold ≤ p.2.calculate_retention F now s.agent_state s.agent_profile))
    some ({ s with memories := kept }, before - kept.length)
  else none

end ConcurrentMemoryStore

/-- Embedding of `ShardedMemoryStore` (src/src/sharded_store.rs lines
10-14): a vector of shard maps. -/
structure ShardedMemoryStore where
  shards : List (List (ℕ × Memory))
  agent_profile : AgentProfile
  agent_state : AgentState
deriving DecidableEq, Repr

namespace ShardedMemoryStore

/-- Embedding of `ShardedMemoryStore::new` (sharded_store.rs lines 18-26).
The `assert!(num_shards > 0)` is carried as a hypothesis of the theorems
that use this constructor. -/
def new (agent_profile : AgentProfile) (agent_state : AgentState)
    (num_shards : ℕ) : ShardedMemoryStore :=
  { shards := List.replicate num_shards []
    agent_profile := agent_profile
    agent_state := agent_state }

/-- Embedding of `ShardedMemoryStore::shard_index` (sharded_store.rs lines
28-30): the id as an integer, modulo the shard count. -/
def shard_index (s : ShardedMemoryStore) (id : ℕ) : ℕ :=
  id % s.shards.length

/-- Embedding of `ShardedMemoryStore::add_memory` (sharded_store.rs lines
33-38): route to shard `hash(id) mod N` and insert there. -/
def add_memory (s : ShardedMemoryStore) (memory : Memory) : ShardedMemoryStore × ℕ :=
  let idx := s.shard_index memory.id
  ({ s with shards := s.shards.set idx (insertAssoc (s.shards.getD idx []) memory.id memory) },
   memory.id)

/-- Embedding of `ShardedMemoryStore::find_relevant` (sharded_store.rs
lines 56-91): gather scored candidates from every shard in shard order
(`flat_map`), sort globally, truncate, reinforce the truncated set in
their home shards, and return copies.  Scoring uses
`crate::simd::cosine_similarity` (via the wrapper at lines 125-127). -/
def find_relevant (F : FloatFns) (now : ℤ) (s : ShardedMemoryStore)
    (query_vector : List ℚ) (limit : ℕ) :
    Except MemoryError (ShardedMemoryStore × List (ℚ × Memory)) :=
  let scored := (s.shards.map (fun shard => shard.map (fun p =>
    (p.1, simd.cosine_similarity F query_vector p.2.semantic_vector
            * p.2.calculate_retention F now s.agent_state s.agent_profile)))).flatten
  let sorted := scored.mergeSort (fun x y => decide (y.2 ≤ x.2))
  let top_n := sorted.take limit
  let shards' := top_n.foldl (fun acc t =>
      let idx := t.1 % acc.length
      acc.set idx ((acc.getD idx []).map (fun p =>
        if p.1 = t.1 then (p.1, p.2.record_retrieval now s.agent_profile.rho) else p)))
    s.shards
  let result := top_n.filterMap (fun t =>
    ((shards'.getD (t.1 % shards'.length) []).lookup t.1).map (fun mem => (t.2, mem)))
  Except.ok ({ s with shards := shards' }, result)

/-- Embedding of `ShardedMemoryStore::maintain` (sharded_store.rs lines
94-107): per-shard retain with one `now` snapshot, summing each shard's
removed count; the `assert!` panic is modelled as `none`. -/
def maintain (F : FloatFns) (now : ℤ) (s : ShardedMemoryStore)
    (retention_threshold : ℚ) : Option (ShardedMemoryStore × ℕ) :=
  if 0 ≤ retention_threshold ∧ retention_threshold ≤ 1 then
    let keep := fun (p : ℕ × Memory) =>
      decide (retention_threshold ≤ p.2.calculate_retention F now s.agent_state s.agent_profile)
    let shards' := s.shards.map (fun shard => shard.filter keep)
    let total_pruned := (s.shards.map (fun shard => shard.length - (shard.filter keep).length)).sum
    some ({ s with shards := shards' }, total_pruned)
  else none

end ShardedMemoryStore

/-- Driver that feeds one insertion sequence into a single-threaded store. -/
def buildStore (p : AgentProfile) (st : AgentState) (ms : List Memory) : MemoryStore :=
  ms.foldl (fun s m => (s.add_memory m).1) (MemoryStore.new p st)

/-- Driver that feeds one insertion sequence into a concurrent store. -/
def buildConcurrentStore (p : AgentProfile) (st : AgentState) (ms : List Memory) :
    ConcurrentMemoryStore :=
  ms.foldl (fun s m => (s.add_memory m).1) (ConcurrentMemoryStore.new p st)

/-- Driver that feeds one insertion sequence into a sharded store with
`n` shards. -/
def buildShardedStore (p : AgentProfile) (st : AgentState) (n : ℕ) (ms : List Memory) :
    ShardedMemoryStore :=
  ms.foldl (fun s m => (s.add_memory m).1) (ShardedMemoryStore.new p st n)

/-- Spec-side phase term, written from the words of spec.md §4.2 item 1
and the profile field documentation in src/src/model.rs lines 343-350: a
logistic function of `age_at_formation` relative to the profile's age for
half-max plasticity `a_mid` with steepness `k`, plus the additive
interference-related floor. -/
def phase_term_spec (F : FloatFns) (m : Memory) (profile : AgentProfile) : ℚ :=
  1 / (1 + F.exp (profile.k * (m.age_at_formation - profile.a_mid)))
    + profile.interference_factor

/-- Concrete instantiation of the abstract float operations, used only to
evaluate witnesses and counterexamples at explicit inputs (every theorem
below is universally quantified over `FloatFns`, so any choice serves). -/
def FloatFns.sample : FloatFns :=
  { exp := fun x => x, powf := fun _ _ => 1, sqrt := fun x => x }

/-- Concrete agent state used by witnesses, mirroring the construction in
the crate documentation (src/src/lib.rs lines 25-31). -/
def AgentState.sample : AgentState :=
  { stress := 0, fatigue := 0, focus := 1, current_age := 30, sleep_debt := 0
    cortisol_level := 0, training_factor := 0 }

/-- The relevance score a ranked query assigns to one memory: similarity
with the query times current retention (store.rs lines 146-148,
concurrent_store.rs lines 61-63, sharded_store.rs lines 65-67), written
with the spec-side similarity kernel (all three in-source kernels agree
with it, see the theorems below). -/
def score (F : FloatFns) (now : ℤ) (p : AgentProfile) (st : AgentState)
    (q : List ℚ) (m : Memory) : ℚ :=
  cosine_similarity_spec F q m.semantic_vector * m.calculate_retention F now st p

/-- Canonical form of the ranked-query pipeline on one association list of
records: score every record, stable-sort descending, truncate to the
limit, and pair each kept score with a copy of its (reinforced) record.
Each store variant's `find_relevant` is proven to produce exactly this
result list over its record collection. -/
def canonical_find (F : FloatFns) (now : ℤ) (p : AgentProfile) (st : AgentState)
    (q : List ℚ) (limit : ℕ) (L : List (ℕ × Memory)) : List (ℚ × Memory) :=
  let scored := L.map (fun pr => (pr.1, score F now p st q pr.2))
  let top_n := (scored.mergeSort (fun x y => decide (y.2 ≤ x.2))).take limit
  top_n.filterMap (fun t => (L.lookup t.1).map (fun mem =>
    (t.2, mem.record_retrieval now p.rho)))

theorem sum_range_chunks (f : ℕ → ℚ) (c L : ℕ) :
    ∑ j ∈ Finset.range c, ∑ l ∈ Finset.range L, f (j * L + l)
      = ∑ i ∈ Finset.range (c * L), f i := by
  induction c with
  | zero => simp
  | succ c ih =>
    rw [Finset.sum_range_succ, ih, Nat.succ_mul]
    have hsplit : ∑ i ∈ Finset.range (c * L + L), f i
        = ∑ i ∈ Finset.range (c * L), f i + ∑ i ∈ Finset.Ico (c * L) (c * L + L), f i := by
      rw [Finset.range_eq_Ico]
      exact (Finset.sum_Ico_consecutive f (Nat.zero_le _) (Nat.le_add_right _ _)).symm
    rw [hsplit, Finset.sum_Ico_eq_sum_range]
    simp [Nat.add_sub_cancel_left, add_comm]

theorem chunked_sum (f : ℕ → ℚ) (n : ℕ) :
    (∑ l ∈ Finset.range 8, ∑ i ∈ Finset.range (n / 8), f (i * 8 + l))
      + ∑ i ∈ Finset.Ico (n - n % 8) n, f i = ∑ i ∈ Finset.range n, f i := by
  rw [Finset.sum_comm, sum_range_chunks]
  have hmod : n - n % 8 = n / 8 * 8 := by omega
  have hle : n / 8 * 8 ≤ n := by omega
  rw [hmod, Finset.range_eq_Ico]
  exact Finset.sum_Ico_consecutive f (Nat.zero_le _) hle

theorem zip_mul_sum (a : List ℚ) : ∀ b : List ℚ, a.length = b.length →
    ((a.zip b).map (fun p => p.1 * p.2)).sum
      = ∑ i ∈ Finset.range a.length, a.getD i 0 * b.getD i 0 := by
  induction a with
  | nil => intro b _; simp
  | cons x xs ih =>
    intro b hb
    cases b with
    | nil => simp at hb
    | cons y ys =>
      simp only [List.zip_cons_cons, List.map_cons, List.sum_cons, List.length_cons]
      rw [Finset.sum_range_succ', ih ys (by simpa using hb)]
      simp [add_comm]

theorem map_sq_sum (a : List ℚ) :
    ((a.map (fun x => x * x)).sum = ∑ i ∈ Finset.range a.length, a.getD i 0 * a.getD i 0) := by
  induction a with
  | nil => simp
  | cons x xs ih =>
    simp only [List.map_cons, List.sum_cons, List.length_cons]
    rw [Finset.sum_range_succ', ih]
    simp [add_comm]

theorem simd_utils_dot_eq (a b : List ℚ) (h : a.length = b.length) :
    simd_utils.dot a b = specDot a b := by
  unfold simd_utils.dot specDot
  rw [if_neg (by omega)]
  simp only []
  rw [zip_mul_sum a b h]
  exact chunked_sum (fun i => a.getD i 0 * b.getD i 0) a.length

theorem simd_utils_norm_eq (F : FloatFns) (a : List ℚ) :
    simd_utils.norm F a = specNorm F a := by
  unfold simd_utils.norm specNorm
  rw [map_sq_sum]
  exact congrArg F.sqrt (chunked_sum (fun i => a.getD i 0 * a.getD i 0) a.length)

theorem simd_utils_cosine_eq_spec (F : FloatFns) (a b : List ℚ) :
    simd_utils.cosine_similarity F a b = cosine_similarity_spec F a b := by
  unfold simd_utils.cosine_similarity cosine_similarity_spec
  by_cases h : a = [] ∨ b = [] ∨ a.length ≠ b.length
  · rw [if_pos h, if_pos h]
  · have hlen : a.length = b.length := by
      rcases not_or.mp h with ⟨-, h2⟩
      rcases not_or.mp h2 with ⟨-, h3⟩
      omega
    rw [if_neg h, if_neg h]
    simp only [simd_utils_dot_eq a b hlen, simd_utils_norm_eq]

theorem simd_cosine_eq_spec (F : FloatFns) (a b : List ℚ) :
    simd.cosine_similarity F a b = cosine_similarity_spec F a b := rfl

theorem concurrent_cosine_eq_spec (F : FloatFns) (a b : List ℚ) :
    concurrent_store.cosine_similarity F a b = cosine_similarity_spec F a b := rfl

/-- C2: for all vectors a and b, `cosine_similarity` returns exactly 0 when
either vector is empty, when their lengths differ, or when either vector's
norm is exactly zero, and otherwise returns the cosine similarity
dot(a,b) / (norm(a) * norm(b)); this holds for the chunked SIMD kernel in
simd_utils.rs, the scalar kernel in simd.rs, and the private copy in
concurrent_store.rs, all of which are pure functions of their arguments. -/
theorem cosine_similarity_meets_spec (F : FloatFns) (a b : List ℚ) :
    simd_utils.cosine_similarity F a b = cosine_similarity_spec F a b ∧
    simd.cosine_similarity F a b = cosine_similarity_spec F a b ∧
    concurrent_store.cosine_similarity F a b = cosine_similarity_spec F a b :=
  ⟨simd_utils_cosine_eq_spec F a b, simd_cosine_eq_spec F a b, concurrent_cosine_eq_spec F a b⟩

/-- C3: for every memory, timestamp, agent state and agent profile,
`calculate_retention` returns a value in the closed interval [0,1]: the
source's final `retention.max(0.0).min(1.0)` clamp guarantees it whatever
the unclamped product is.  The function is pure (it never mutates the
memory), which the embedding reflects by construction. -/
theorem calculate_retention_in_unit_interval (F : FloatFns) (m : Memory) (now : ℤ)
    (st : AgentState) (pr : AgentProfile) :
    0 ≤ m.calculate_retention F now st pr ∧ m.calculate_retention F now st pr ≤ 1 := by
  simp only [Memory.calculate_retention]
  exact ⟨le_min (le_max_right _ _) zero_le_one, min_le_right _ _⟩

/-- C5: one `record_retrieval(rho)` call — for every memory, time and rho —
appends the current time to `recall_history` (length grows by exactly 1),
increments `retrieval_count` by exactly 1, sets `last_retrieved` to now,
and multiplies `memory_strength` by 1/(1+rho); and whenever rho > 0 (and
the strength is live, i.e. positive, which holds for every record ever
constructed, since strength starts at 1 and is only multiplied by positive
factors) the strength strictly decreases.  `record_retrieval` itself is
modelled from the spec, its definition being absent from src/. -/
theorem record_retrieval_effects (m : Memory) (now : ℤ) (rho : ℚ) :
    (m.record_retrieval now rho).recall_history.length = m.recall_history.length + 1 ∧
    (m.record_retrieval now rho).retrieval_count = m.retrieval_count + 1 ∧
    (m.record_retrieval now rho).last_retrieved = now ∧
    (m.record_retrieval now rho).memory_strength = m.memory_strength * (1 / (1 + rho)) ∧
    (0 < rho → 0 < m.memory_strength →
      (m.record_retrieval now rho).memory_strength < m.memory_strength) := by
  refine ⟨by simp [Memory.record_retrieval], rfl, rfl, rfl, ?_⟩
  intro hrho hs
  show m.memory_strength * (1 / (1 + rho)) < m.memory_strength
  have h1 : (0:ℚ) < 1 + rho := by linarith
  have h2 : 1 / (1 + rho) < 1 := by
    rw [div_lt_one h1]; linarith
  calc m.memory_strength * (1 / (1 + rho)) < m.memory_strength * 1 :=
        mul_lt_mul_of_pos_left h2 hs
    _ = m.memory_strength := mul_one _

theorem record_retrieval_effects_witness :
    ((Memory.new 1 0 [1] 0 25 1).record_retrieval 5 (1/10)).recall_history.length
      = (Memory.new 1 0 [1] 0 25 1).recall_history.length + 1 ∧
    (0:ℚ) < 1/10 ∧ 0 < (Memory.new 1 0 [1] 0 25 1).memory_strength ∧
    ((Memory.new 1 0 [1] 0 25 1).record_retrieval 5 (1/10)).memory_strength
      < (Memory.new 1 0 [1] 0 25 1).memory_strength :=
  ⟨(record_retrieval_effects (Memory.new 1 0 [1] 0 25 1) 5 (1/10)).1,
   by norm_num, by norm_num [Memory.new],
   (record_retrieval_effects (Memory.new 1 0 [1] 0 25 1) 5 (1/10)).2.2.2.2
     (by norm_num) (by norm_num [Memory.new])⟩

/-- C9: the phase computation of `calculate_retention` is NOT a logistic
function of `age_at_formation` relative to the profile's age for half-max
plasticity `a_mid` and phase steepness `k`: as written it uses
`capacity_factor` for both the steepness and the half-max age
(model.rs lines 290-292), contradicting the profile's own field
documentation (`k`: phase steepness, `a_mid`: age for half-max
plasticity, model.rs lines 343-347).  At the default profile and a memory
formed at age 25, with `exp` instantiated as the identity, the two
computations give 1/25 + 3/10 versus 1/(5/2) + 3/10. -/
theorem phase_term_mismatch :
    Memory.phase_term FloatFns.sample (Memory.new 1 0 [1] 0 25 1) AgentProfile.default
      ≠ phase_term_spec FloatFns.sample (Memory.new 1 0 [1] 0 25 1) AgentProfile.default := by
  norm_num [Memory.phase_term, phase_term_spec, Memory.new, AgentProfile.default, FloatFns.sample]

theorem find_relevant_limit_zero_counterexample :
    (buildStore AgentProfile.default AgentState.sample
        [Memory.new 1 0 [1] (1/2) 25 1]).find_relevant FloatFns.sample 0 [1] 0
      = Except.ok (buildStore AgentProfile.default AgentState.sample
          [Memory.new 1 0 [1] (1/2) 25 1], []) := by
  simp [MemoryStore.find_relevant]

/-- C7 (amended): calling `find_relevant` with limit 0 is not signaled at
all: the non-faiss path computes the scores, takes zero of them, reinforces
nothing, and returns Ok with the empty result list, leaving the store
unchanged.  No `InvalidParameter` error is returned (and, despite the doc
comment on the function promising one, no panic occurs either). -/
theorem find_relevant_limit_zero_returns_ok (F : FloatFns) (now : ℤ)
    (s : MemoryStore) (q : List ℚ) :
    s.find_relevant F now q 0 = Except.ok (s, []) := by
  simp [MemoryStore.find_relevant]

theorem maintain_out_of_range_counterexample :
    (MemoryStore.new AgentProfile.default AgentState.sample).maintain
        FloatFns.sample 0 (3/2) = none := by
  rw [MemoryStore.maintain, if_neg (by norm_num)]

/-- C8 (amended): `maintain` with a threshold greater than 1.0 or less
than 0.0 panics on the leading `assert!` (modelled as `none`) in both the
single-threaded and the concurrent store; no `InvalidParameter` error is
returned to the caller (the functions return a bare count, with no error
channel at all). -/
theorem maintain_out_of_range_panics (F : FloatFns) (now : ℤ)
    (s : MemoryStore) (sc : ConcurrentMemoryStore) (t : ℚ)
    (h : t < 0 ∨ 1 < t) :
    s.maintain F now t = none ∧ sc.maintain F now t = none := by
  have hcond : ¬ (0 ≤ t ∧ t ≤ 1) := by rcases h with h | h <;> intro hc <;> rcases hc with ⟨h0, h1⟩ <;> linarith
  constructor
  · rw [MemoryStore.maintain, if_neg hcond]
  · rw [ConcurrentMemoryStore.maintain, if_neg hcond]

theorem maintain_out_of_range_panics_witness :
    ((-1:ℚ) < 0 ∨ 1 < (-1:ℚ)) ∧
    (MemoryStore.new AgentProfile.default AgentState.sample).maintain
        FloatFns.sample 0 (-1) = none ∧
    (ConcurrentMemoryStore.new AgentProfile.default AgentState.sample).maintain
        FloatFns.sample 0 (-1) = none :=
  ⟨Or.inl (by norm_num),
   (maintain_out_of_range_panics FloatFns.sample 0
     (MemoryStore.new AgentProfile.default AgentState.sample)
     (ConcurrentMemoryStore.new AgentProfile.default AgentState.sample)
     (-1) (Or.inl (by norm_num))).1,
   (maintain_out_of_range_panics FloatFns.sample 0
     (MemoryStore.new AgentProfile.default AgentState.sample)
     (ConcurrentMemoryStore.new AgentProfile.default AgentState.sample)
     (-1) (Or.inl (by norm_num))).2⟩

/-- C10: `find_relevant` on a store that contains no memories returns Ok
with the empty result list (for both the single-threaded and the
concurrent store); it does not return an error.  (The doc comment on
`MemoryStore::find_relevant` claims a `NotFound` error in this case, but
the code has no such exit.) -/
theorem find_relevant_empty_store_ok (F : FloatFns) (now : ℤ) (q : List ℚ)
    (limit : ℕ) (s : MemoryStore) (sc : ConcurrentMemoryStore)
    (hs : s.memories = []) (hsc : sc.memories = []) :
    s.find_relevant F now q limit = Except.ok (s, []) ∧
    sc.find_relevant F now q limit = Except.ok (sc, []) := by
  constructor
  · obtain ⟨mem, p, st⟩ := s
    simp only at hs
    subst hs
    simp [MemoryStore.find_relevant, List.mergeSort_nil]
  · obtain ⟨mem, p, st⟩ := sc
    simp only at hsc
    subst hsc
    simp [ConcurrentMemoryStore.find_relevant, List.mergeSort_nil]

theorem find_relevant_empty_store_ok_witness :
    (MemoryStore.new AgentProfile.default AgentState.sample).memories = [] ∧
    (ConcurrentMemoryStore.new AgentProfile.default AgentState.sample).memories = [] ∧
    (MemoryStore.new AgentProfile.default AgentState.sample).find_relevant
        FloatFns.sample 0 [1, 2] 3
      = Except.ok (MemoryStore.new AgentProfile.default AgentState.sample, []) :=
  ⟨rfl, rfl,
   (find_relevant_empty_store_ok FloatFns.sample 0 [1, 2] 3
     (MemoryStore.new AgentProfile.default AgentState.sample)
     (ConcurrentMemoryStore.new AgentProfile.default AgentState.sample)
     rfl rfl).1⟩

theorem length_sub_filter (l : List (ℕ × Memory)) (keep : ℕ × Memory → Bool) :
    l.length - (l.filter keep).length = l.countP (fun a => !keep a) := by
  induction l with
  | nil => rfl
  | cons x xs ih =>
    have hle := List.length_filter_le keep xs
    cases hx : keep x <;>
      simp [List.filter_cons, List.countP_cons, hx] <;> omega

/-- C6: for every threshold t in [0,1], `maintain(t)` computes each live
memory's retention under one snapshot of now, keeps exactly the memories
whose retention is at least t (so every remaining memory has retention
greater than or equal to t), and returns the number of memories removed,
which is exactly the number whose retention was strictly below t; this
holds for the single-threaded store and for the sharded store, whose
per-shard sweep sums each shard's removed count. -/
theorem maintain_eviction_exact (F : FloatFns) (now : ℤ) (s : MemoryStore)
    (ssh : ShardedMemoryStore) (t : ℚ) (h0 : 0 ≤ t) (h1 : t ≤ 1) :
    (∃ s' nrem, s.maintain F now t = some (s', nrem) ∧
      s'.memories = s.memories.filter (fun p =>
        decide (t ≤ p.2.calculate_retention F now s.agent_state s.agent_profile)) ∧
      (∀ p ∈ s'.memories, t ≤ p.2.calculate_retention F now s.agent_state s.agent_profile) ∧
      nrem = s.memories.countP (fun p =>
        decide (p.2.calculate_retention F now s.agent_state s.agent_profile < t)) ∧
      s'.agent_profile = s.agent_profile ∧ s'.agent_state = s.agent_state) ∧
    (∃ ssh' nremS, ssh.maintain F now t = some (ssh', nremS) ∧
      ssh'.shards = ssh.shards.map (fun shard => shard.filter (fun p =>
        decide (t ≤ p.2.calculate_retention F now ssh.agent_state ssh.agent_profile))) ∧
      (∀ shard ∈ ssh'.shards, ∀ p ∈ shard,
        t ≤ p.2.calculate_retention F now ssh.agent_state ssh.agent_profile) ∧
      nremS = ssh.shards.flatten.countP (fun p =>
        decide (p.2.calculate_retention F now ssh.agent_state ssh.agent_profile < t)) ∧
      ssh'.agent_profile = ssh.agent_profile ∧ ssh'.agent_state = ssh.agent_state) := by
  constructor
  · refine ⟨⟨s.memories.filter (fun p =>
        decide (t ≤ p.2.calculate_retention F now s.agent_state s.agent_profile)),
        s.agent_profile, s.agent_state⟩,
      s.memories.length - (s.memories.filter (fun p =>
        decide (t ≤ p.2.calculate_retention F now s.agent_state s.agent_profile))).length,
      ?_, rfl, ?_, ?_, rfl, rfl⟩
    · simp only [MemoryStore.maintain]
      rw [if_pos (⟨h0, h1⟩ : 0 ≤ t ∧ t ≤ 1)]
    · intro p hp
      exact of_decide_eq_true (List.mem_filter.mp hp).2
    · rw [length_sub_filter]
      apply List.countP_congr
      intro p _
      simp only [Bool.not_eq_true', decide_eq_false_iff_not, decide_eq_true_eq, not_le]
  · refine ⟨⟨ssh.shards.map (fun shard => shard.filter (fun p =>
        decide (t ≤ p.2.calculate_retention F now ssh.agent_state ssh.agent_profile))),
        ssh.agent_profile, ssh.agent_state⟩,
      (ssh.shards.map (fun shard => shard.length - (shard.filter (fun p =>
        decide (t ≤ p.2.calculate_retention F now ssh.agent_state ssh.agent_profile))).length)).sum,
      ?_, rfl, ?_, ?_, rfl, rfl⟩
    · simp only [ShardedMemoryStore.maintain]
      rw [if_pos (⟨h0, h1⟩ : 0 ≤ t ∧ t ≤ 1)]
    · intro shard hshard p hp
      obtain ⟨shard₀, -, hsh⟩ := List.mem_map.mp hshard
      rw [← hsh] at hp
      exact of_decide_eq_true (List.mem_filter.mp hp).2
    · rw [List.countP_flatten]
      apply congrArg List.sum
      apply List.map_congr_left
      intro shard _
      rw [length_sub_filter]
      apply List.countP_congr
      intro p _
      simp only [Bool.not_eq_true', decide_eq_false_iff_not, decide_eq_true_eq, not_le]

theorem maintain_eviction_exact_witness :
    (0:ℚ) ≤ 1/2 ∧ (1:ℚ)/2 ≤ 1 ∧
    ((∃ s' nrem, (MemoryStore.new AgentProfile.default AgentState.sample).maintain
        FloatFns.sample 0 (1/2) = some (s', nrem) ∧
      s'.memories = (MemoryStore.new AgentProfile.default AgentState.sample).memories.filter
        (fun p => decide ((1:ℚ)/2 ≤ p.2.calculate_retention FloatFns.sample 0
          (MemoryStore.new AgentProfile.default AgentState.sample).agent_state
          (MemoryStore.new AgentProfile.default AgentState.sample).agent_profile)) ∧
      (∀ p ∈ s'.memories, (1:ℚ)/2 ≤ p.2.calculate_retention FloatFns.sample 0
          (MemoryStore.new AgentProfile.default AgentState.sample).agent_state
          (MemoryStore.new AgentProfile.default AgentState.sample).agent_profile) ∧
      nrem = (MemoryStore.new AgentProfile.default AgentState.sample).memories.countP
        (fun p => decide (p.2.calculate_retention FloatFns.sample 0
          (MemoryStore.new AgentProfile.default AgentState.sample).agent_state
          (MemoryStore.new AgentProfile.default AgentState.sample).agent_profile < (1:ℚ)/2)) ∧
      s'.agent_profile = (MemoryStore.new AgentProfile.default AgentState.sample).agent_profile ∧
      s'.agent_state = (MemoryStore.new AgentProfile.default AgentState.sample).agent_state) ∧
    (∃ ssh' nremS, (ShardedMemoryStore.new AgentProfile.default AgentState.sample 2).maintain
        FloatFns.sample 0 (1/2) = some (ssh', nremS) ∧
      ssh'.shards = (ShardedMemoryStore.new AgentProfile.default AgentState.sample 2).shards.map
        (fun shard => shard.filter (fun p => decide ((1:ℚ)/2 ≤ p.2.calculate_retention
          FloatFns.sample 0
          (ShardedMemoryStore.new AgentProfile.default AgentState.sample 2).agent_state
          (ShardedMemoryStore.new AgentProfile.default AgentState.sample 2).agent_profile))) ∧
      (∀ shard ∈ ssh'.shards, ∀ p ∈ shard, (1:ℚ)/2 ≤ p.2.calculate_retention FloatFns.sample 0
          (ShardedMemoryStore.new AgentProfile.default AgentState.sample 2).agent_state
          (ShardedMemoryStore.new AgentProfile.default AgentState.sample 2).agent_profile) ∧
      nremS = (ShardedMemoryStore.new AgentProfile.default AgentState.sample 2).shards.flatten.countP
        (fun p => decide (p.2.calculate_retention FloatFns.sample 0
          (ShardedMemoryStore.new AgentProfile.default AgentState.sample 2).agent_state
          (ShardedMemoryStore.new AgentProfile.default AgentState.sample 2).agent_profile < (1:ℚ)/2)) ∧
      ssh'.agent_profile = (ShardedMemoryStore.new AgentProfile.default AgentState.sample 2).agent_profile ∧
      ssh'.agent_state = (ShardedMemoryStore.new AgentProfile.default AgentState.sample 2).agent_state)) :=
  ⟨by norm_num, by norm_num,
   maintain_eviction_exact FloatFns.sample 0
     (MemoryStore.new AgentProfile.default AgentState.sample)
     (ShardedMemoryStore.new AgentProfile.default AgentState.sample 2) (1/2)
     (by norm_num) (by norm_num)⟩

theorem mergeSort_desc_sorted (l : List (ℕ × ℚ)) :
    (l.mergeSort (fun x y => decide (y.2 ≤ x.2))).Pairwise (fun a b => b.2 ≤ a.2) := by
  have h := @List.sorted_mergeSort (ℕ × ℚ) (fun x y => decide (y.2 ≤ x.2))
    (fun a b c h₁ h₂ => by
      simp only [decide_eq_true_eq] at h₁ h₂ ⊢
      exact le_trans h₂ h₁)
    (fun a b => by
      simp only [Bool.or_eq_true, decide_eq_true_eq]
      exact le_total b.2 a.2) l
  exact h.imp (fun hab => of_decide_eq_true hab)

/-- C4: for every store, query vector and limit at least 1,
`find_relevant` returns at most `limit` results, sorted by descending
score: every pair of results in output order satisfies
second.score less than or equal to first.score (so in particular every
adjacent pair does); this holds for both the single-threaded store and
the concurrent store. -/
theorem find_relevant_sorted_and_truncated (F : FloatFns) (now : ℤ)
    (s : MemoryStore) (sc : ConcurrentMemoryStore) (q : List ℚ) (limit : ℕ)
    (hlim : 1 ≤ limit)
    (s' : MemoryStore) (res : List (ℚ × Memory))
    (sc' : ConcurrentMemoryStore) (resc : List (ℚ × Memory))
    (h : s.find_relevant F now q limit = Except.ok (s', res))
    (hc : sc.find_relevant F now q limit = Except.ok (sc', resc)) :
    (res.length ≤ limit ∧ res.Pairwise (fun a b => b.1 ≤ a.1)) ∧
    (resc.length ≤ limit ∧ resc.Pairwise (fun a b => b.1 ≤ a.1)) := by
  constructor
  · simp only [MemoryStore.find_relevant, Except.ok.injEq, Prod.mk.injEq] at h
    obtain ⟨h1, h2⟩ := h
    subst h2
    constructor
    · refine le_trans (List.length_filterMap_le _ _) ?_
      rw [List.length_take]
      exact inf_le_left
    · have hsorted := mergeSort_desc_sorted (s.memories.map (fun p =>
        (p.1, simd_utils.cosine_similarity F q p.2.semantic_vector
                * p.2.calculate_retention F now s.agent_state s.agent_profile)))
      have htake := List.Pairwise.sublist (List.take_sublist limit _) hsorted
      rw [List.pairwise_filterMap]
      refine htake.imp ?_
      intro a b hab x hx y hy
      rw [Option.mem_map] at hx hy
      obtain ⟨ma, -, hxa⟩ := hx
      obtain ⟨mb, -, hyb⟩ := hy
      subst hxa
      subst hyb
      exact hab
  · simp only [ConcurrentMemoryStore.find_relevant, Except.ok.injEq, Prod.mk.injEq] at hc
    obtain ⟨hc1, hc2⟩ := hc
    subst hc2
    constructor
    · refine le_trans (List.length_filterMap_le _ _) ?_
      rw [List.length_take]
      exact inf_le_left
    · have hsorted := mergeSort_desc_sorted (sc.memories.map (fun p =>
        (p.1, concurrent_store.cosine_similarity F q p.2.semantic_vector
                * p.2.calculate_retention F now sc.agent_state sc.agent_profile)))
      have htake := List.Pairwise.sublist (List.take_sublist limit _) hsorted
      rw [List.pairwise_filterMap]
      refine htake.imp ?_
      intro a b hab x hx y hy
      rw [Option.mem_map] at hx hy
      obtain ⟨ma, -, hxa⟩ := hx
      obtain ⟨mb, -, hyb⟩ := hy
      subst hxa
      subst hyb
      exact hab

theorem find_relevant_sorted_and_truncated_witness :
    1 ≤ 1 ∧
    ((MemoryStore.new AgentProfile.default AgentState.sample).find_relevant
        FloatFns.sample 0 [1] 1
      = Except.ok (MemoryStore.new AgentProfile.default AgentState.sample, [])) ∧
    ((ConcurrentMemoryStore.new AgentProfile.default AgentState.sample).find_relevant
        FloatFns.sample 0 [1] 1
      = Except.ok (ConcurrentMemoryStore.new AgentProfile.default AgentState.sample, [])) ∧
    ((([] : List (ℚ × Memory)).length ≤ 1 ∧
      ([] : List (ℚ × Memory)).Pairwise (fun a b => b.1 ≤ a.1)) ∧
     (([] : List (ℚ × Memory)).length ≤ 1 ∧
      ([] : List (ℚ × Memory)).Pairwise (fun a b => b.1 ≤ a.1))) :=
  ⟨le_refl 1,
   by simp [MemoryStore.find_relevant, MemoryStore.new, List.mergeSort_nil],
   by simp [ConcurrentMemoryStore.find_relevant, ConcurrentMemoryStore.new, List.mergeSort_nil],
   find_relevant_sorted_and_truncated FloatFns.sample 0
     (MemoryStore.new AgentProfile.default AgentState.sample)
     (ConcurrentMemoryStore.new AgentProfile.default AgentState.sample) [1] 1 (le_refl 1)
     (MemoryStore.new AgentProfile.default AgentState.sample) []
     (ConcurrentMemoryStore.new AgentProfile.default AgentState.sample) []
     (by simp [MemoryStore.find_relevant, MemoryStore.new, List.mergeSort_nil])
     (by simp [ConcurrentMemoryStore.find_relevant, ConcurrentMemoryStore.new, List.mergeSort_nil])⟩

theorem lookup_eq_of_mem (k : ℕ) (m : Memory) : ∀ (L : List (ℕ × Memory)),
    (k, m) ∈ L → (L.map Prod.fst).Nodup → L.lookup k = some m := by
  intro L
  induction L with
  | nil => intro h _; simp at h
  | cons pr rest ih =>
    intro hmem hnd
    rw [List.map_cons, List.nodup_cons] at hnd
    rcases List.mem_cons.mp hmem with heq | hrest
    · rw [← heq]
      simp [List.lookup_cons]
    · have hk : (k == pr.1) = false := by
        rw [beq_eq_false_iff_ne]
        intro he
        exact hnd.1 (he ▸ List.mem_map.mpr ⟨(k, m), hrest, rfl⟩)
      rw [List.lookup_cons]
      simp only [hk]
      exact ih hrest hnd.2

theorem mem_key_unique (k : ℕ) (m₁ m₂ : Memory) (L : List (ℕ × Memory))
    (h₁ : (k, m₁) ∈ L) (h₂ : (k, m₂) ∈ L) (hnd : (L.map Prod.fst).Nodup) : m₁ = m₂ := by
  have e₁ := lookup_eq_of_mem k m₁ L h₁ hnd
  have e₂ := lookup_eq_of_mem k m₂ L h₂ hnd
  rw [e₁] at e₂
  exact (Option.some.injEq _ _ ▸ e₂)

theorem lookup_map_if (rr : Memory → Memory) (ids : List ℕ) (k : ℕ) :
    ∀ (L : List (ℕ × Memory)),
    (L.map (fun pr => if pr.1 ∈ ids then (pr.1, rr pr.2) else pr)).lookup k
      = (L.lookup k).map (fun mem => if k ∈ ids then rr mem else mem) := by
  intro L
  induction L with
  | nil => rfl
  | cons pr rest ih =>
    obtain ⟨a, b⟩ := pr
    by_cases hk : k = a
    · subst hk
      by_cases hc : k ∈ ids <;> simp [List.lookup_cons, hc]
    · have hbeq : (k == a) = false := by rw [beq_eq_false_iff_ne]; exact hk
      by_cases hc : a ∈ ids <;> simp [List.lookup_cons, hc, hbeq, ih]

theorem foldl_map_update (rr : Memory → Memory) : ∀ (ts : List (ℕ × ℚ)),
    ∀ (L : List (ℕ × Memory)), (ts.map Prod.fst).Nodup →
    ts.foldl (fun acc t => acc.map (fun pr => if pr.1 = t.1 then (pr.1, rr pr.2) else pr)) L
      = L.map (fun pr => if pr.1 ∈ ts.map Prod.fst then (pr.1, rr pr.2) else pr) := by
  intro ts
  induction ts with
  | nil =>
    intro L _
    simp
  | cons t rest ih =>
    intro L hnd
    rw [List.map_cons, List.nodup_cons] at hnd
    simp only [List.foldl_cons]
    rw [ih _ hnd.2, List.map_map]
    apply List.map_congr_left
    intro pr _
    simp only [Function.comp_apply, List.map_cons, List.mem_cons]
    by_cases hpr : pr.1 = t.1
    · rw [if_pos hpr]
      dsimp only
      have h1 : pr.1 ∉ rest.map Prod.fst := hpr ▸ hnd.1
      rw [if_neg h1, if_pos (Or.inl hpr)]
    · by_cases hr : pr.1 ∈ rest.map Prod.fst
      · rw [if_neg hpr, if_pos hr, if_pos (Or.inr hr)]
      · rw [if_neg hpr, if_neg hr, if_neg (by tauto)]

theorem getD_set_self {α : Type} (l : List α) (i : ℕ) (v d : α) (hi : i < l.length) :
    (l.set i v).getD i d = v := by
  rw [List.getD_eq_getElem?_getD, List.getElem?_set]
  simp [hi]

theorem getD_set_other {α : Type} (l : List α) (i j : ℕ) (v d : α) (h : i ≠ j) :
    (l.set i v).getD j d = l.getD j d := by
  rw [List.getD_eq_getElem?_getD, List.getElem?_set, if_neg h, ← List.getD_eq_getElem?_getD]

theorem getD_map_list (g : (ℕ × Memory) → (ℕ × Memory)) (sh : List (List (ℕ × Memory))) (j : ℕ) :
    (sh.map (fun shard => shard.map g)).getD j [] = (sh.getD j []).map g := by
  rw [List.getD_eq_getElem?_getD, List.getD_eq_getElem?_getD, List.getElem?_map]
  cases sh[j]? <;> rfl

theorem flatten_set_append {α : Type} : ∀ (L : List (List α)) (i : ℕ) (x : α), i < L.length →
    (L.set i (L.getD i [] ++ [x])).flatten.Perm (L.flatten ++ [x]) := by
  intro L
  induction L with
  | nil => intro i x h; simp at h
  | cons l₀ rest ih =>
    intro i x hi
    cases i with
    | zero =>
      simp only [List.set_cons_zero, List.getD_cons_zero, List.flatten_cons, List.append_assoc]
      exact List.Perm.append_left l₀ List.perm_append_comm
    | succ i' =>
      simp only [List.set_cons_succ, List.getD_cons_succ, List.flatten_cons]
      have h₁ := List.Perm.append_left l₀ (ih i' x (by simpa using hi))
      rw [← List.append_assoc] at h₁
      exact h₁

theorem flatten_replicate_nil {α : Type} : ∀ (n : ℕ),
    (List.replicate n ([] : List α)).flatten = [] := by
  intro n
  induction n with
  | zero => rfl
  | succ n ih => simp [List.replicate_succ, ih]

theorem upd_comp (rr : Memory → Memory) (t : ℕ × ℚ) (rest : List (ℕ × ℚ))
    (hnot : t.1 ∉ rest.map Prod.fst) (L : List (ℕ × Memory)) :
    (L.map (fun pr => if pr.1 = t.1 then (pr.1, rr pr.2) else pr)).map
        (fun pr => if pr.1 ∈ rest.map Prod.fst then (pr.1, rr pr.2) else pr)
      = L.map (fun pr => if pr.1 ∈ t.1 :: rest.map Prod.fst then (pr.1, rr pr.2) else pr) := by
  rw [List.map_map]
  apply List.map_congr_left
  intro pr _
  simp only [Function.comp_apply, List.mem_cons]
  by_cases hpr : pr.1 = t.1
  · rw [if_pos hpr]
    dsimp only
    rw [if_neg (hpr ▸ hnot), if_pos (Or.inl hpr)]
  · by_cases hr : pr.1 ∈ rest.map Prod.fst
    · rw [if_neg hpr, if_pos hr, if_pos (Or.inr hr)]
    · rw [if_neg hpr, if_neg hr, if_neg (by tauto)]

theorem sharded_foldl_update (rr : Memory → Memory) (n : ℕ) (hn : 0 < n) :
    ∀ (ts : List (ℕ × ℚ)) (sh : List (List (ℕ × Memory))), sh.length = n →
    (ts.map Prod.fst).Nodup →
    (∀ j, ∀ pr ∈ sh.getD j [], pr.1 % n = j) →
    ts.foldl (fun acc t => acc.set (t.1 % acc.length)
        ((acc.getD (t.1 % acc.length) []).map (fun pr => if pr.1 = t.1 then (pr.1, rr pr.2) else pr))) sh
      = sh.map (fun shard => shard.map (fun pr =>
          if pr.1 ∈ ts.map Prod.fst then (pr.1, rr pr.2) else pr)) := by
  intro ts
  induction ts with
  | nil =>
    intro sh _ _ _
    simp
  | cons t rest ih =>
    intro sh hlen hnd hhome
    rw [List.map_cons, List.nodup_cons] at hnd
    simp only [List.foldl_cons]
    have hidxlt : t.1 % sh.length < sh.length := Nat.mod_lt _ (by omega)
    have hlen' : (sh.set (t.1 % sh.length) ((sh.getD (t.1 % sh.length) []).map
        (fun pr => if pr.1 = t.1 then (pr.1, rr pr.2) else pr))).length = n := by
      rw [List.length_set]; exact hlen
    have hhome' : ∀ j, ∀ pr ∈ (sh.set (t.1 % sh.length) ((sh.getD (t.1 % sh.length) []).map
        (fun pr => if pr.1 = t.1 then (pr.1, rr pr.2) else pr))).getD j [], pr.1 % n = j := by
      intro j pr hpr
      by_cases hj : t.1 % sh.length = j
      · subst hj
        rw [getD_set_self _ _ _ _ hidxlt] at hpr
        obtain ⟨pr₀, hpr₀, hmap⟩ := List.mem_map.mp hpr
        have hkey : pr.1 = pr₀.1 := by
          by_cases h0 : pr₀.1 = t.1
          · rw [if_pos h0] at hmap
            rw [← hmap, h0]
          · rw [if_neg h0] at hmap
            rw [← hmap]
        rw [hkey]
        exact hhome _ pr₀ hpr₀
      · rw [getD_set_other _ _ _ _ _ hj] at hpr
        exact hhome j pr hpr
    rw [ih _ hlen' hnd.2 hhome']
    apply List.ext_getElem
    · simp [List.length_set]
    · intro j h₁ h₂
      rw [List.getElem_map, List.getElem_map, List.getElem_set]
      by_cases hj : t.1 % sh.length = j
      · rw [if_pos hj]
        subst hj
        rw [List.getD_eq_getElem _ _ hidxlt]
        exact upd_comp rr t rest hnd.1 _
      · rw [if_neg hj]
        apply List.map_congr_left
        intro pr hpr
        have hj2 : j < sh.length := by simpa using h₂
        have hhomej : pr.1 % n = j := by
          apply hhome j
          rw [List.getD_eq_getElem _ _ hj2]
          exact hpr
        have hne : pr.1 ≠ t.1 := by
          intro he
          apply hj
          rw [← hhomej, he, hlen]
        simp only [List.map_cons, List.mem_cons]
        by_cases hr : pr.1 ∈ rest.map Prod.fst
        · rw [if_pos hr, if_pos (Or.inr hr)]
        · rw [if_neg hr, if_neg (by tauto)]

theorem foldl_insertAssoc : ∀ (ms : List Memory) (acc : List (ℕ × Memory)),
    (∀ m ∈ ms, ∀ pr ∈ acc, pr.1 ≠ m.id) → (ms.map Memory.id).Nodup →
    ms.foldl (fun acc m => insertAssoc acc m.id m) acc
      = acc ++ ms.map (fun m => (m.id, m)) := by
  intro ms
  induction ms with
  | nil => intro acc _ _; simp
  | cons m rest ih =>
    intro acc hfresh hnd
    rw [List.map_cons, List.nodup_cons] at hnd
    simp only [List.foldl_cons]
    have hcond : ¬ (acc.any (fun p => p.1 == m.id) = true) := by
      rw [List.any_eq_true]
      rintro ⟨pr, hpr, hbeq⟩
      exact hfresh m (List.mem_cons_self _ _) pr hpr (beq_iff_eq.mp hbeq)
    have hins : insertAssoc acc m.id m = acc ++ [(m.id, m)] := by
      simp only [insertAssoc]
      rw [if_neg hcond]
    rw [hins]
    have hfresh' : ∀ m' ∈ rest, ∀ pr ∈ acc ++ [(m.id, m)], pr.1 ≠ m'.id := by
      intro m' hm' pr hpr
      rcases List.mem_append.mp hpr with h | h
      · exact hfresh m' (List.mem_cons_of_mem _ hm') pr h
      · simp only [List.mem_singleton] at h
        subst h
        intro heq
        apply hnd.1
        rw [show m.id = m'.id from heq]
        exact List.mem_map.mpr ⟨m', hm', rfl⟩
    rw [ih _ hfresh' hnd.2, List.map_cons, List.append_assoc]
    rfl

theorem sharded_fold_insert (n : ℕ) (hn : 0 < n) :
    ∀ (ms : List Memory) (sh : List (List (ℕ × Memory))),
    sh.length = n →
    (∀ m ∈ ms, ∀ pr ∈ sh.flatten, pr.1 ≠ m.id) →
    (ms.map Memory.id).Nodup →
    (∀ j, ∀ pr ∈ sh.getD j [], pr.1 % n = j) →
    ((ms.foldl (fun acc m => acc.set (m.id % acc.length)
        (insertAssoc (acc.getD (m.id % acc.length) []) m.id m)) sh).length = n ∧
     ((ms.foldl (fun acc m => acc.set (m.id % acc.length)
        (insertAssoc (acc.getD (m.id % acc.length) []) m.id m)) sh).flatten).Perm
        (sh.flatten ++ ms.map (fun m => (m.id, m))) ∧
     (∀ j, ∀ pr ∈ (ms.foldl (fun acc m => acc.set (m.id % acc.length)
        (insertAssoc (acc.getD (m.id % acc.length) []) m.id m)) sh).getD j [], pr.1 % n = j)) := by
  intro ms
  induction ms with
  | nil =>
    intro sh hlen hfresh hnd hhome
    exact ⟨hlen, by simp, hhome⟩
  | cons m rest ih =>
    intro sh hlen hfresh hnd hhome
    rw [List.map_cons, List.nodup_cons] at hnd
    simp only [List.foldl_cons]
    have hidxlt : m.id % sh.length < sh.length := Nat.mod_lt _ (by omega)
    have hmemflat : ∀ pr ∈ sh.getD (m.id % sh.length) [], pr ∈ sh.flatten := by
      intro pr hpr
      rw [List.getD_eq_getElem _ _ hidxlt] at hpr
      exact List.mem_flatten.mpr ⟨_, List.getElem_mem hidxlt, hpr⟩
    have hcond2 : ¬ ((sh.getD (m.id % sh.length) []).any (fun p => p.1 == m.id) = true) := by
      rw [List.any_eq_true]
      rintro ⟨pr, hpr, hbeq⟩
      exact hfresh m (List.mem_cons_self _ _) pr (hmemflat pr hpr) (beq_iff_eq.mp hbeq)
    have hins : insertAssoc (sh.getD (m.id % sh.length) []) m.id m
        = sh.getD (m.id % sh.length) [] ++ [(m.id, m)] := by
      simp only [insertAssoc]
      rw [if_neg hcond2]
    rw [hins]
    have hflat' : (sh.set (m.id % sh.length)
        (sh.getD (m.id % sh.length) [] ++ [(m.id, m)])).flatten.Perm
        (sh.flatten ++ [(m.id, m)]) := flatten_set_append sh _ _ hidxlt
    have hlen' : (sh.set (m.id % sh.length)
        (sh.getD (m.id % sh.length) [] ++ [(m.id, m)])).length = n := by
      rw [List.length_set]; exact hlen
    have hfresh' : ∀ m' ∈ rest, ∀ pr ∈ (sh.set (m.id % sh.length)
        (sh.getD (m.id % sh.length) [] ++ [(m.id, m)])).flatten, pr.1 ≠ m'.id := by
      intro m' hm' pr hpr
      rcases List.mem_append.mp (hflat'.mem_iff.mp hpr) with h | h
      · exact hfresh m' (List.mem_cons_of_mem _ hm') pr h
      · simp only [List.mem_singleton] at h
        subst h
        intro heq
        apply hnd.1
        rw [show m.id = m'.id from heq]
        exact List.mem_map.mpr ⟨m', hm', rfl⟩
    have hhome' : ∀ j, ∀ pr ∈ (sh.set (m.id % sh.length)
        (sh.getD (m.id % sh.length) [] ++ [(m.id, m)])).getD j [], pr.1 % n = j := by
      intro j pr hpr
      by_cases hj : m.id % sh.length = j
      · subst hj
        rw [getD_set_self _ _ _ _ hidxlt] at hpr
        rcases List.mem_append.mp hpr with h | h
        · exact hhome _ pr h
        · simp only [List.mem_singleton] at h
          subst h
          rw [hlen]
      · rw [getD_set_other _ _ _ _ _ hj] at hpr
        exact hhome j pr hpr
    obtain ⟨ihlen, ihperm, ihhome⟩ := ih _ hlen' hfresh' hnd.2 hhome'
    refine ⟨ihlen, ?_, ihhome⟩
    refine ihperm.trans ?_
    refine (hflat'.append_right _).trans ?_
    rw [List.append_assoc]
    exact List.Perm.refl _

theorem foldl_add_memory_flat : ∀ (ms : List Memory) (L : List (ℕ × Memory))
    (p : AgentProfile) (st : AgentState),
    ms.foldl (fun s m => (MemoryStore.add_memory s m).1) ⟨L, p, st⟩
      = ⟨ms.foldl (fun acc m => insertAssoc acc m.id m) L, p, st⟩ := by
  intro ms
  induction ms with
  | nil => intro L p st; rfl
  | cons m rest ih =>
    intro L p st
    simp only [List.foldl_cons]
    exact ih _ _ _

theorem foldl_add_memory_conc : ∀ (ms : List Memory) (L : List (ℕ × Memory))
    (p : AgentProfile) (st : AgentState),
    ms.foldl (fun s m => (ConcurrentMemoryStore.add_memory s m).1) ⟨L, p, st⟩
      = ⟨ms.foldl (fun acc m => insertAssoc acc m.id m) L, p, st⟩ := by
  intro ms
  induction ms with
  | nil => intro L p st; rfl
  | cons m rest ih =>
    intro L p st
    simp only [List.foldl_cons]
    exact ih _ _ _

theorem foldl_add_memory_sharded : ∀ (ms : List Memory) (sh : List (List (ℕ × Memory)))
    (p : AgentProfile) (st : AgentState),
    ms.foldl (fun s m => (ShardedMemoryStore.add_memory s m).1) ⟨sh, p, st⟩
      = ⟨ms.foldl (fun acc m => acc.set (m.id % acc.length)
          (insertAssoc (acc.getD (m.id % acc.length) []) m.id m)) sh, p, st⟩ := by
  intro ms
  induction ms with
  | nil => intro sh p st; rfl
  | cons m rest ih =>
    intro sh p st
    simp only [List.foldl_cons]
    exact ih _ _ _

theorem mergeSort_eq_of_perm (l₁ l₂ : List (ℕ × ℚ)) (hperm : l₁.Perm l₂)
    (hdist : l₁.Pairwise (fun x y => x.2 ≠ y.2)) :
    l₁.mergeSort (fun x y => decide (y.2 ≤ x.2))
      = l₂.mergeSort (fun x y => decide (y.2 ≤ x.2)) := by
  have hp₁ := List.mergeSort_perm l₁ (fun x y : ℕ × ℚ => decide (y.2 ≤ x.2))
  have hp₂ := List.mergeSort_perm l₂ (fun x y : ℕ × ℚ => decide (y.2 ≤ x.2))
  have hs₁ := mergeSort_desc_sorted l₁
  have hs₂ := mergeSort_desc_sorted l₂
  have hperm' := hp₁.trans (hperm.trans hp₂.symm)
  have hsymm : ∀ {x y : ℕ × ℚ}, x.2 ≠ y.2 → y.2 ≠ x.2 := fun h => h.symm
  have hd₁ : (l₁.mergeSort (fun x y => decide (y.2 ≤ x.2))).Pairwise
      (fun x y : ℕ × ℚ => x.2 ≠ y.2) := (List.Perm.pairwise_iff hsymm hp₁).mpr hdist
  have hd₂ : (l₂.mergeSort (fun x y => decide (y.2 ≤ x.2))).Pairwise
      (fun x y : ℕ × ℚ => x.2 ≠ y.2) :=
    (List.Perm.pairwise_iff hsymm (hp₂.trans hperm.symm)).mpr hdist
  have hstrict₁ : (l₁.mergeSort (fun x y => decide (y.2 ≤ x.2))).Pairwise
      (fun x y : ℕ × ℚ => y.2 < x.2) :=
    (hs₁.and hd₁).imp (fun h => lt_of_le_of_ne h.1 (Ne.symm h.2))
  have hstrict₂ : (l₂.mergeSort (fun x y => decide (y.2 ≤ x.2))).Pairwise
      (fun x y : ℕ × ℚ => y.2 < x.2) :=
    (hs₂.and hd₂).imp (fun h => lt_of_le_of_ne h.1 (Ne.symm h.2))
  haveI : IsAntisymm (ℕ × ℚ) (fun x y : ℕ × ℚ => y.2 < x.2) :=
    ⟨fun a b h₁ h₂ => absurd h₂ (not_lt.mpr (le_of_lt h₁))⟩
  exact List.eq_of_perm_of_sorted hperm' hstrict₁ hstrict₂

theorem take_keys_nodup (limit : ℕ) (L : List (ℕ × Memory))
    (hnd : (L.map Prod.fst).Nodup) (f : (ℕ × Memory) → (ℕ × ℚ))
    (hf : ∀ pr, (f pr).1 = pr.1) :
    ((((L.map f).mergeSort (fun x y => decide (y.2 ≤ x.2))).take limit).map Prod.fst).Nodup := by
  have h1 : (L.map f).map Prod.fst = L.map Prod.fst := by
    rw [List.map_map]
    exact List.map_congr_left (fun pr _ => hf pr)
  have h2 : (((L.map f).mergeSort (fun x y => decide (y.2 ≤ x.2))).map Prod.fst).Nodup := by
    refine (List.Perm.nodup_iff ?_).mpr (h1 ▸ hnd)
    exact (List.mergeSort_perm (L.map f) _).map Prod.fst
  exact List.Nodup.sublist ((List.take_sublist limit _).map Prod.fst) h2

theorem mem_scored_of_mem_take (limit : ℕ) (S : List (ℕ × ℚ)) (t : ℕ × ℚ)
    (ht : t ∈ (S.mergeSort (fun x y => decide (y.2 ≤ x.2))).take limit) : t ∈ S :=
  (List.mergeSort_perm S _).mem_iff.mp ((List.take_sublist limit _).subset ht)

theorem flat_find_canonical (F : FloatFns) (now : ℤ) (p : AgentProfile) (st : AgentState)
    (q : List ℚ) (limit : ℕ) (L : List (ℕ × Memory)) (hnd : (L.map Prod.fst).Nodup) :
    ((MemoryStore.find_relevant F now ⟨L, p, st⟩ q limit).map Prod.snd)
      = Except.ok (canonical_find F now p st q limit L) := by
  simp only [MemoryStore.find_relevant, canonical_find, Except.map]
  have hsc : L.map (fun pr => (pr.1, simd_utils.cosine_similarity F q pr.2.semantic_vector
        * pr.2.calculate_retention F now st p))
      = L.map (fun pr => (pr.1, score F now p st q pr.2)) :=
    List.map_congr_left (fun pr _ => by rw [simd_utils_cosine_eq_spec]; rfl)
  rw [hsc]
  have hTnd := take_keys_nodup limit L hnd (fun pr => (pr.1, score F now p st q pr.2))
    (fun pr => rfl)
  rw [foldl_map_update (fun mem => mem.record_retrieval now p.rho) _ L hTnd]
  apply congrArg Except.ok
  apply List.filterMap_congr
  intro t ht
  have ht1 : t.1 ∈ (((L.map (fun pr => (pr.1, score F now p st q pr.2))).mergeSort
      (fun x y => decide (y.2 ≤ x.2))).take limit).map Prod.fst :=
    List.mem_map.mpr ⟨t, ht, rfl⟩
  rw [lookup_map_if (fun mem => mem.record_retrieval now p.rho) _ t.1 L, Option.map_map]
  have hfun : ((fun mem : Memory => ((t.2 : ℚ), mem)) ∘
      (fun mem : Memory => if t.1 ∈ (((L.map (fun pr => (pr.1, score F now p st q pr.2))).mergeSort
        (fun x y => decide (y.2 ≤ x.2))).take limit).map Prod.fst
        then mem.record_retrieval now p.rho else mem))
      = (fun mem : Memory => ((t.2 : ℚ), mem.record_retrieval now p.rho)) :=
    funext (fun mem => by rw [Function.comp_apply, if_pos ht1])
  rw [hfun]

theorem conc_find_canonical (F : FloatFns) (now : ℤ) (p : AgentProfile) (st : AgentState)
    (q : List ℚ) (limit : ℕ) (L : List (ℕ × Memory)) (hnd : (L.map Prod.fst).Nodup) :
    ((ConcurrentMemoryStore.find_relevant F now ⟨L, p, st⟩ q limit).map Prod.snd)
      = Except.ok (canonical_find F now p st q limit L) := by
  simp only [ConcurrentMemoryStore.find_relevant, canonical_find, Except.map]
  have hsc : L.map (fun pr => (pr.1, concurrent_store.cosine_similarity F q pr.2.semantic_vector
        * pr.2.calculate_retention F now st p))
      = L.map (fun pr => (pr.1, score F now p st q pr.2)) :=
    List.map_congr_left (fun pr _ => by rw [concurrent_cosine_eq_spec]; rfl)
  rw [hsc]
  have hTnd := take_keys_nodup limit L hnd (fun pr => (pr.1, score F now p st q pr.2))
    (fun pr => rfl)
  rw [foldl_map_update (fun mem => mem.record_retrieval now p.rho) _ L hTnd]
  apply congrArg Except.ok
  apply List.filterMap_congr
  intro t ht
  have ht1 : t.1 ∈ (((L.map (fun pr => (pr.1, score F now p st q pr.2))).mergeSort
      (fun x y => decide (y.2 ≤ x.2))).take limit).map Prod.fst :=
    List.mem_map.mpr ⟨t, ht, rfl⟩
  rw [lookup_map_if (fun mem => mem.record_retrieval now p.rho) _ t.1 L, Option.map_map]
  have hfun : ((fun mem : Memory => ((t.2 : ℚ), mem)) ∘
      (fun mem : Memory => if t.1 ∈ (((L.map (fun pr => (pr.1, score F now p st q pr.2))).mergeSort
        (fun x y => decide (y.2 ≤ x.2))).take limit).map Prod.fst
        then mem.record_retrieval now p.rho else mem))
      = (fun mem : Memory => ((t.2 : ℚ), mem.record_retrieval now p.rho)) :=
    funext (fun mem => by rw [Function.comp_apply, if_pos ht1])
  rw [hfun]

theorem sharded_find_canonical (F : FloatFns) (now : ℤ) (p : AgentProfile) (st : AgentState)
    (q : List ℚ) (limit : ℕ) (sh : List (List (ℕ × Memory)))
    (hn : 0 < sh.length)
    (hnd : (sh.flatten.map Prod.fst).Nodup)
    (hhome : ∀ j, ∀ pr ∈ sh.getD j [], pr.1 % sh.length = j) :
    ((ShardedMemoryStore.find_relevant F now ⟨sh, p, st⟩ q limit).map Prod.snd)
      = Except.ok (canonical_find F now p st q limit sh.flatten) := by
  simp only [ShardedMemoryStore.find_relevant, canonical_find, Except.map]
  have hsc : (sh.map (fun shard => shard.map (fun pr =>
        (pr.1, simd.cosine_similarity F q pr.2.semantic_vector
          * pr.2.calculate_retention F now st p)))).flatten
      = sh.flatten.map (fun pr => (pr.1, score F now p st q pr.2)) := by
    rw [List.map_flatten]
    exact congrArg List.flatten
      (List.map_congr_left (fun shard _ => List.map_congr_left (fun pr _ => rfl)))
  rw [hsc]
  have hTnd := take_keys_nodup limit sh.flatten hnd
    (fun pr => (pr.1, score F now p st q pr.2)) (fun pr => rfl)
  rw [sharded_foldl_update (fun mem => mem.record_retrieval now p.rho) sh.length hn _ sh
    rfl hTnd hhome]
  apply congrArg Except.ok
  apply List.filterMap_congr
  intro t ht
  have ht1 : t.1 ∈ (((sh.flatten.map (fun pr => (pr.1, score F now p st q pr.2))).mergeSort
      (fun x y => decide (y.2 ≤ x.2))).take limit).map Prod.fst :=
    List.mem_map.mpr ⟨t, ht, rfl⟩
  -- locate the record this score entry came from
  have hts : t ∈ sh.flatten.map (fun pr => (pr.1, score F now p st q pr.2)) :=
    mem_scored_of_mem_take limit _ t ht
  obtain ⟨pr₀, hpr₀, heq⟩ := List.mem_map.mp hts
  have ht1eq : t.1 = pr₀.1 := by rw [← heq]
  have hmemflat : (t.1, pr₀.2) ∈ sh.flatten := by
    rw [ht1eq]
    exact hpr₀
  -- the entry lives in its home shard
  have hidxlt : t.1 % sh.length < sh.length := Nat.mod_lt _ hn
  obtain ⟨shard, hshard, hin⟩ := List.mem_flatten.mp hmemflat
  obtain ⟨j, hj, hshj⟩ := List.mem_iff_getElem.mp hshard
  have hinD : (t.1, pr₀.2) ∈ sh.getD j [] := by
    rw [List.getD_eq_getElem _ _ hj, hshj]
    exact hin
  have hjhome := hhome j _ hinD
  have hjeq : j = t.1 % sh.length := by
    rw [← hjhome]
  have hinHome : (t.1, pr₀.2) ∈ sh.getD (t.1 % sh.length) [] := hjeq ▸ hinD
  have hshnd : ((sh.getD (t.1 % sh.length) []).map Prod.fst).Nodup := by
    refine List.Nodup.sublist ?_ hnd
    refine List.Sublist.map Prod.fst ?_
    rw [List.getD_eq_getElem _ _ hidxlt]
    exact List.sublist_flatten_of_mem (List.getElem_mem hidxlt)
  -- both lookups produce that record
  rw [List.length_map, getD_map_list,
    lookup_map_if (fun mem => mem.record_retrieval now p.rho) _ t.1 _, Option.map_map]
  rw [lookup_eq_of_mem t.1 pr₀.2 _ hinHome hshnd]
  rw [lookup_eq_of_mem t.1 pr₀.2 sh.flatten hmemflat hnd]
  simp only [Option.map_some']
  rw [Function.comp_apply, if_pos ht1]

theorem canonical_find_perm (F : FloatFns) (now : ℤ) (p : AgentProfile) (st : AgentState)
    (q : List ℚ) (limit : ℕ) (L₁ L₂ : List (ℕ × Memory))
    (hperm : L₁.Perm L₂) (hnd : (L₁.map Prod.fst).Nodup)
    (hdist : L₁.Pairwise (fun x y => score F now p st q x.2 ≠ score F now p st q y.2)) :
    canonical_find F now p st q limit L₁ = canonical_find F now p st q limit L₂ := by
  simp only [canonical_find]
  have hnd₂ : (L₂.map Prod.fst).Nodup :=
    (List.Perm.nodup_iff (hperm.map Prod.fst)).mp hnd
  have hsperm : (L₁.map (fun pr => (pr.1, score F now p st q pr.2))).Perm
      (L₂.map (fun pr => (pr.1, score F now p st q pr.2))) :=
    hperm.map _
  have hsdist : (L₁.map (fun pr => (pr.1, score F now p st q pr.2))).Pairwise
      (fun x y : ℕ × ℚ => x.2 ≠ y.2) := List.pairwise_map.mpr hdist
  rw [mergeSort_eq_of_perm _ _ hsperm hsdist]
  apply List.filterMap_congr
  intro t ht
  have hts : t ∈ L₂.map (fun pr => (pr.1, score F now p st q pr.2)) :=
    mem_scored_of_mem_take limit _ t ht
  obtain ⟨pr₀, hpr₀, heq⟩ := List.mem_map.mp hts
  have ht1eq : t.1 = pr₀.1 := by rw [← heq]
  have hmem₂ : (t.1, pr₀.2) ∈ L₂ := by rw [ht1eq]; exact hpr₀
  have hmem₁ : (t.1, pr₀.2) ∈ L₁ := hperm.mem_iff.mpr hmem₂
  rw [lookup_eq_of_mem t.1 pr₀.2 L₁ hmem₁ hnd, lookup_eq_of_mem t.1 pr₀.2 L₂ hmem₂ hnd₂]

theorem flat_maintain_count (F : FloatFns) (now : ℤ) (p : AgentProfile) (st : AgentState)
    (t : ℚ) (L : List (ℕ × Memory)) (h0 : 0 ≤ t) (h1 : t ≤ 1) :
    (MemoryStore.maintain F now ⟨L, p, st⟩ t).map Prod.snd
      = some (L.countP (fun pr =>
          !decide (t ≤ pr.2.calculate_retention F now st p))) := by
  simp only [MemoryStore.maintain]
  rw [if_pos (⟨h0, h1⟩ : 0 ≤ t ∧ t ≤ 1)]
  simp only [Option.map_some']
  exact congrArg some (length_sub_filter _ _)

theorem conc_maintain_count (F : FloatFns) (now : ℤ) (p : AgentProfile) (st : AgentState)
    (t : ℚ) (L : List (ℕ × Memory)) (h0 : 0 ≤ t) (h1 : t ≤ 1) :
    (ConcurrentMemoryStore.maintain F now ⟨L, p, st⟩ t).map Prod.snd
      = some (L.countP (fun pr =>
          !decide (t ≤ pr.2.calculate_retention F now st p))) := by
  simp only [ConcurrentMemoryStore.maintain]
  rw [if_pos (⟨h0, h1⟩ : 0 ≤ t ∧ t ≤ 1)]
  simp only [Option.map_some']
  exact congrArg some (length_sub_filter _ _)

theorem sharded_maintain_count (F : FloatFns) (now : ℤ) (p : AgentProfile) (st : AgentState)
    (t : ℚ) (sh : List (List (ℕ × Memory))) (h0 : 0 ≤ t) (h1 : t ≤ 1) :
    (ShardedMemoryStore.maintain F now ⟨sh, p, st⟩ t).map Prod.snd
      = some (sh.flatten.countP (fun pr =>
          !decide (t ≤ pr.2.calculate_retention F now st p))) := by
  simp only [ShardedMemoryStore.maintain]
  rw [if_pos (⟨h0, h1⟩ : 0 ≤ t ∧ t ≤ 1)]
  simp only [Option.map_some']
  apply congrArg some
  rw [List.countP_flatten]
  apply congrArg List.sum
  apply List.map_congr_left
  intro shard _
  exact length_sub_filter shard _

/-- C1 (amended): for stores built from identical insertion sequences with
identical agent profile and state and driven single-threadedly with one
shared clock snapshot, the single-threaded, concurrent and sharded stores
produce identical `maintain` eviction counts for every threshold in [0,1];
and they produce identical `find_relevant` result lists provided no two
inserted memories tie on their query score (ties are broken by scan order,
and the sharded store scans shard-by-shard rather than in insertion
order). -/
theorem cross_variant_equivalence (F : FloatFns) (now : ℤ) (p : AgentProfile)
    (st : AgentState) (q : List ℚ) (limit : ℕ) (n : ℕ) (t : ℚ) (ms : List Memory)
    (hn : 0 < n)
    (hids : (ms.map Memory.id).Nodup)
    (ht0 : 0 ≤ t) (ht1 : t ≤ 1) :
    (ms.Pairwise (fun m₁ m₂ => score F now p st q m₁ ≠ score F now p st q m₂) →
      ∃ res, ((buildStore p st ms).find_relevant F now q limit).map Prod.snd = Except.ok res ∧
        ((buildConcurrentStore p st ms).find_relevant F now q limit).map Prod.snd = Except.ok res ∧
        ((buildShardedStore p st n ms).find_relevant F now q limit).map Prod.snd = Except.ok res) ∧
    (∃ cnt, ((buildStore p st ms).maintain F now t).map Prod.snd = some cnt ∧
      ((buildConcurrentStore p st ms).maintain F now t).map Prod.snd = some cnt ∧
      ((buildShardedStore p st n ms).maintain F now t).map Prod.snd = some cnt) := by
  have hA : buildStore p st ms = ⟨ms.map (fun m => (m.id, m)), p, st⟩ := by
    simp only [buildStore, MemoryStore.new]
    rw [foldl_add_memory_flat,
      foldl_insertAssoc ms [] (fun m _ pr hpr => absurd hpr (List.not_mem_nil _)) hids,
      List.nil_append]
  have hB : buildConcurrentStore p st ms = ⟨ms.map (fun m => (m.id, m)), p, st⟩ := by
    simp only [buildConcurrentStore, ConcurrentMemoryStore.new]
    rw [foldl_add_memory_conc,
      foldl_insertAssoc ms [] (fun m _ pr hpr => absurd hpr (List.not_mem_nil _)) hids,
      List.nil_append]
  have hrep_len : (List.replicate n ([] : List (ℕ × Memory))).length = n :=
    List.length_replicate _ _
  have hrep_fresh : ∀ m ∈ ms, ∀ pr ∈ (List.replicate n ([] : List (ℕ × Memory))).flatten,
      pr.1 ≠ m.id := by
    intro m _ pr hpr
    rw [flatten_replicate_nil] at hpr
    exact absurd hpr (List.not_mem_nil _)
  have hrep_home : ∀ j, ∀ pr ∈ (List.replicate n ([] : List (ℕ × Memory))).getD j [],
      pr.1 % n = j := by
    intro j pr hpr
    have hD : (List.replicate n ([] : List (ℕ × Memory))).getD j [] = [] := by
      rcases Nat.lt_or_ge j n with h | h
      · rw [List.getD_eq_getElem _ _ (by simpa using h)]
        exact List.getElem_replicate _ _
      · rw [List.getD_eq_getElem?_getD, List.getElem?_eq_none (by simpa using h)]
        rfl
    rw [hD] at hpr
    exact absurd hpr (List.not_mem_nil _)
  obtain ⟨hClen, hCperm, hChome⟩ :=
    sharded_fold_insert n hn ms (List.replicate n []) hrep_len hrep_fresh hids hrep_home
  rw [flatten_replicate_nil, List.nil_append] at hCperm
  have hC : buildShardedStore p st n ms
      = ⟨ms.foldl (fun acc m => acc.set (m.id % acc.length)
          (insertAssoc (acc.getD (m.id % acc.length) []) m.id m))
          (List.replicate n []), p, st⟩ := by
    simp only [buildShardedStore, ShardedMemoryStore.new]
    rw [foldl_add_memory_sharded]
  have hLnd : ((ms.map (fun m => (m.id, m))).map Prod.fst).Nodup := by
    rw [List.map_map]
    exact hids
  have hkeysC : (((ms.foldl (fun acc m => acc.set (m.id % acc.length)
      (insertAssoc (acc.getD (m.id % acc.length) []) m.id m))
      (List.replicate n [])).flatten.map Prod.fst)).Nodup := by
    refine (List.Perm.nodup_iff (hCperm.map Prod.fst)).mpr ?_
    rw [List.map_map]
    exact hids
  have hChome' : ∀ j, ∀ pr ∈ (ms.foldl (fun acc m => acc.set (m.id % acc.length)
      (insertAssoc (acc.getD (m.id % acc.length) []) m.id m))
      (List.replicate n [])).getD j [],
      pr.1 % (ms.foldl (fun acc m => acc.set (m.id % acc.length)
        (insertAssoc (acc.getD (m.id % acc.length) []) m.id m))
        (List.replicate n [])).length = j := by
    intro j pr hpr
    rw [hClen]
    exact hChome j pr hpr
  have hn' : 0 < (ms.foldl (fun acc m => acc.set (m.id % acc.length)
      (insertAssoc (acc.getD (m.id % acc.length) []) m.id m))
      (List.replicate n [])).length := by
    rw [hClen]
    exact hn
  constructor
  · intro hdist
    have hdistL : (ms.map (fun m => (m.id, m))).Pairwise
        (fun x y => score F now p st q x.2 ≠ score F now p st q y.2) :=
      List.pairwise_map.mpr hdist
    refine ⟨canonical_find F now p st q limit (ms.map (fun m => (m.id, m))), ?_, ?_, ?_⟩
    · rw [hA]
      exact flat_find_canonical F now p st q limit _ hLnd
    · rw [hB]
      exact conc_find_canonical F now p st q limit _ hLnd
    · rw [hC, sharded_find_canonical F now p st q limit _ hn' hkeysC hChome']
      exact congrArg Except.ok
        (canonical_find_perm F now p st q limit _ _ hCperm.symm hLnd hdistL).symm
  · refine ⟨(ms.map (fun m => (m.id, m))).countP (fun pr =>
      !decide (t ≤ pr.2.calculate_retention F now st p)), ?_, ?_, ?_⟩
    · rw [hA]
      exact flat_maintain_count F now p st t _ ht0 ht1
    · rw [hB]
      exact conc_maintain_count F now p st t _ ht0 ht1
    · rw [hC, sharded_maintain_count F now p st t _ ht0 ht1]
      exact congrArg some (List.Perm.countP_eq _ hCperm)

theorem retention_sample (id : ℕ) (v : List ℚ) :
    (Memory.new id 0 v 0 25 1).calculate_retention FloatFns.sample 0
      AgentState.sample AgentProfile.default = 17/5000 := by
  norm_num [Memory.calculate_retention, Memory.phase_term, Memory.new,
    DecayParams.default, AgentProfile.default, AgentState.sample, FloatFns.sample]

theorem score_sample_vec1 (id : ℕ) :
    score FloatFns.sample 0 AgentProfile.default AgentState.sample [1]
      (Memory.new id 0 [1] 0 25 1) = 17/5000 := by
  have h := retention_sample id [1]
  simp only [score, Memory.new] at h ⊢
  rw [h]
  norm_num [cosine_similarity_spec, specDot, specNorm, FloatFns.sample]

theorem score_sample_vec2 (id : ℕ) :
    score FloatFns.sample 0 AgentProfile.default AgentState.sample [1]
      (Memory.new id 0 [2] 0 25 1) = 17/10000 := by
  have h := retention_sample id [2]
  simp only [score, Memory.new] at h ⊢
  rw [h]
  norm_num [cosine_similarity_spec, specDot, specNorm, FloatFns.sample]

theorem sample_pair_distinct :
    [Memory.new 1 0 [1] 0 25 1, Memory.new 2 0 [2] 0 25 1].Pairwise
      (fun m₁ m₂ => score FloatFns.sample 0 AgentProfile.default AgentState.sample [1] m₁
        ≠ score FloatFns.sample 0 AgentProfile.default AgentState.sample [1] m₂) := by
  refine List.Pairwise.cons ?_ (List.pairwise_singleton _ _)
  intro m' hm'
  simp only [List.mem_singleton] at hm'
  subst hm'
  rw [score_sample_vec1, score_sample_vec2]
  norm_num

theorem sample_pair_nodup :
    ([Memory.new 1 0 [1] 0 25 1, Memory.new 2 0 [2] 0 25 1].map Memory.id).Nodup := by
  simp [Memory.new]

theorem cross_variant_equivalence_witness :
    (0 < 2) ∧
    (([Memory.new 1 0 [1] 0 25 1, Memory.new 2 0 [2] 0 25 1].map Memory.id).Nodup) ∧
    ((0:ℚ) ≤ 1/2) ∧ ((1:ℚ)/2 ≤ 1) ∧
    ((([Memory.new 1 0 [1] 0 25 1, Memory.new 2 0 [2] 0 25 1].Pairwise
      (fun m₁ m₂ => score FloatFns.sample 0 AgentProfile.default AgentState.sample [1] m₁
        ≠ score FloatFns.sample 0 AgentProfile.default AgentState.sample [1] m₂)) →
      ∃ res, ((buildStore AgentProfile.default AgentState.sample
        [Memory.new 1 0 [1] 0 25 1, Memory.new 2 0 [2] 0 25 1]).find_relevant
          FloatFns.sample 0 [1] 3).map Prod.snd = Except.ok res ∧
      ((buildConcurrentStore AgentProfile.default AgentState.sample
        [Memory.new 1 0 [1] 0 25 1, Memory.new 2 0 [2] 0 25 1]).find_relevant
          FloatFns.sample 0 [1] 3).map Prod.snd = Except.ok res ∧
      ((buildShardedStore AgentProfile.default AgentState.sample 2
        [Memory.new 1 0 [1] 0 25 1, Memory.new 2 0 [2] 0 25 1]).find_relevant
          FloatFns.sample 0 [1] 3).map Prod.snd = Except.ok res) ∧
    (∃ cnt, ((buildStore AgentProfile.default AgentState.sample
        [Memory.new 1 0 [1] 0 25 1, Memory.new 2 0 [2] 0 25 1]).maintain
          FloatFns.sample 0 (1/2)).map Prod.snd = some cnt ∧
      ((buildConcurrentStore AgentProfile.default AgentState.sample
        [Memory.new 1 0 [1] 0 25 1, Memory.new 2 0 [2] 0 25 1]).maintain
          FloatFns.sample 0 (1/2)).map Prod.snd = some cnt ∧
      ((buildShardedStore AgentProfile.default AgentState.sample 2
        [Memory.new 1 0 [1] 0 25 1, Memory.new 2 0 [2] 0 25 1]).maintain
          FloatFns.sample 0 (1/2)).map Prod.snd = some cnt)) :=
  ⟨by norm_num, sample_pair_nodup, by norm_num, by norm_num,
   cross_variant_equivalence FloatFns.sample 0 AgentProfile.default AgentState.sample
     [1] 3 2 (1/2) [Memory.new 1 0 [1] 0 25 1, Memory.new 2 0 [2] 0 25 1]
     (by norm_num) sample_pair_nodup (by norm_num) (by norm_num)⟩

theorem cross_variant_tie_counterexample :
    ((buildStore AgentProfile.default AgentState.sample
        [Memory.new 1 0 [1] 0 25 1, Memory.new 2 0 [1] 0 25 1]).find_relevant
        FloatFns.sample 0 [1] 2).map Prod.snd
      ≠ ((buildShardedStore AgentProfile.default AgentState.sample 2
        [Memory.new 1 0 [1] 0 25 1, Memory.new 2 0 [1] 0 25 1]).find_relevant
        FloatFns.sample 0 [1] 2).map Prod.snd := by
  have hs1 := score_sample_vec1 1
  have hs2 := score_sample_vec1 2
  have hbuildA : buildStore AgentProfile.default AgentState.sample
      [Memory.new 1 0 [1] 0 25 1, Memory.new 2 0 [1] 0 25 1]
      = ⟨[(1, Memory.new 1 0 [1] 0 25 1), (2, Memory.new 2 0 [1] 0 25 1)],
         AgentProfile.default, AgentState.sample⟩ := rfl
  have hbuildC : buildShardedStore AgentProfile.default AgentState.sample 2
      [Memory.new 1 0 [1] 0 25 1, Memory.new 2 0 [1] 0 25 1]
      = ⟨[[(2, Memory.new 2 0 [1] 0 25 1)], [(1, Memory.new 1 0 [1] 0 25 1)]],
         AgentProfile.default, AgentState.sample⟩ := rfl
  rw [hbuildA, hbuildC]
  rw [flat_find_canonical FloatFns.sample 0 AgentProfile.default AgentState.sample
    [1] 2 _ (by simp)]
  rw [sharded_find_canonical FloatFns.sample 0 AgentProfile.default AgentState.sample
    [1] 2 _ (by norm_num) (by simp) ?home]
  case home =>
    intro j pr hpr
    match j with
    | 0 =>
      simp only [List.getD_cons_zero, List.mem_singleton] at hpr
      rw [hpr]
      rfl
    | 1 =>
      simp only [List.getD_cons_succ, List.getD_cons_zero, List.mem_singleton] at hpr
      rw [hpr]
      rfl
    | j + 2 =>
      simp only [List.getD_cons_succ, List.getD_nil] at hpr
      exact absurd hpr (List.not_mem_nil _)
  have hc1 : canonical_find FloatFns.sample 0 AgentProfile.default AgentState.sample [1] 2
      [(1, Memory.new 1 0 [1] 0 25 1), (2, Memory.new 2 0 [1] 0 25 1)]
      = [(17/5000, (Memory.new 1 0 [1] 0 25 1).record_retrieval 0 AgentProfile.default.rho),
         (17/5000, (Memory.new 2 0 [1] 0 25 1).record_retrieval 0 AgentProfile.default.rho)] := by
    simp only [canonical_find, List.map_cons, List.map_nil]
    rw [hs1, hs2]
    norm_num [List.mergeSort, List.lookup, List.filterMap_cons, List.filterMap_nil,
      Option.map_some']
    simp
  have hc2 : canonical_find FloatFns.sample 0 AgentProfile.default AgentState.sample [1] 2
      ([[(2, Memory.new 2 0 [1] 0 25 1)], [(1, Memory.new 1 0 [1] 0 25 1)]] :
        List (List (ℕ × Memory))).flatten
      = [(17/5000, (Memory.new 2 0 [1] 0 25 1).record_retrieval 0 AgentProfile.default.rho),
         (17/5000, (Memory.new 1 0 [1] 0 25 1).record_retrieval 0 AgentProfile.default.rho)] := by
    simp only [List.flatten, List.append_nil, List.singleton_append, canonical_find,
      List.map_cons, List.map_nil]
    rw [hs1, hs2]
    norm_num [List.mergeSort, List.lookup, List.filterMap_cons, List.filterMap_nil,
      Option.map_some']
    simp
  rw [hc1, hc2]
  intro h
  rw [Except.ok.injEq] at h
  have hhead := congrArg (fun l : List (ℚ × Memory) =>
    ((l.headD ((0 : ℚ), Memory.new 0 0 [] 0 0 0)).2).id) h
  simp only [List.headD_cons] at hhead
  simp [Memory.record_retrieval, Memory.new] at hhead
